import Mathlib

/-!
Verification of the credential-handle / token-exchange smoke-test client
(`src/_client_copy.py`) and of the result-shaping tool wrappers
(`src/gh.py`, `src/db.py`, `src/weather.py`) of the example-dedalus-mcp
repository.

Python JSON values are modelled by the mutual inductive `Json` below
(numbers are modelled as integers; floating-point numbers are outside the
scope of this embedding).  Python `None` is identified with JSON `null`.
Python strings are modelled as Lean `String` / `List Char` (sequences of
unicode scalar values).
-/

mutual
inductive Json where
  | null : Json
  | bool (b : Bool) : Json
  | num (n : Int) : Json
  | str (s : String) : Json
  | arr (xs : JsonList) : Json
  | obj (fs : JsonObj) : Json
  deriving DecidableEq

inductive JsonList where
  | nil : JsonList
  | cons (hd : Json) (tl : JsonList) : JsonList
  deriving DecidableEq

inductive JsonObj where
  | nil : JsonObj
  | cons (k : String) (v : Json) (tl : JsonObj) : JsonObj
  deriving DecidableEq
end

namespace JsonList

/-- Convert to an ordinary Lean list (for stating theorems). -/
def toList : JsonList → List Json
  | .nil => []
  | .cons x xs => x :: toList xs

end JsonList

namespace JsonObj

/-- Convert to an ordinary Lean association list (for stating theorems). -/
def toList : JsonObj → List (String × Json)
  | .nil => []
  | .cons k v tl => (k, v) :: toList tl

/-- Python `dict.get k` / `dict[k]` (Python dicts have unique keys, so
first-occurrence lookup is faithful). -/
def lookup : String → JsonObj → Option Json
  | _, .nil => none
  | k, .cons k2 v tl => if k = k2 then some v else lookup k tl

/-- Python `k in dict`. -/
def hasKey (k : String) (fs : JsonObj) : Bool :=
  (fs.lookup k).isSome

/-- Every key of the first object occurs in the second. -/
def keysSub : JsonObj → JsonObj → Bool
  | .nil, _ => true
  | .cons k _ tl, b => b.hasKey k && keysSub tl b

/-- Keys are pairwise distinct (true for every object produced by Python's
`json.loads`, since Python dicts cannot hold duplicate keys). -/
def keysNodup : JsonObj → Bool
  | .nil => true
  | .cons k _ tl => !tl.hasKey k && keysNodup tl

/-- Python `d[k] = v` on a dict: update in place if the key exists,
otherwise append. -/
def setKey : JsonObj → String → Json → JsonObj
  | .nil, k, v => .cons k v .nil
  | .cons k2 v2 tl, k, v =>
    if k = k2 then .cons k2 v tl else .cons k2 v2 (setKey tl k v)

def append : JsonObj → JsonObj → JsonObj
  | .nil, b => b
  | .cons k v tl, b => .cons k v (append tl b)

/-- Build a Python dict from a list of pairs in textual order
(`dict(pairs)`): later duplicate keys overwrite the value, keeping the
first occurrence's position. -/
def dedupAux : JsonObj → JsonObj → JsonObj
  | acc, .nil => acc
  | acc, .cons k v tl => dedupAux (acc.setKey k v) tl

def dedup (fs : JsonObj) : JsonObj := dedupAux .nil fs

end JsonObj

namespace Json

/-- Python truthiness of a JSON value (`if not x`). -/
def truthy : Json → Bool
  | .null => false
  | .bool b => b
  | .num n => n != 0
  | .str s => s != ""
  | .arr .nil => false
  | .arr (.cons _ _) => true
  | .obj .nil => false
  | .obj (.cons _ _ _) => true

end Json

mutual
/-- Python `==` on JSON values: `True == 1`, dict comparison is
order-insensitive. -/
def Json.pyEq : Json → Json → Bool
  | .null, b => match b with | .null => true | _ => false
  | .bool a, b =>
    match b with
    | .bool c => a == c
    | .num n => (if a then (1 : Int) else 0) == n
    | _ => false
  | .num a, b =>
    match b with
    | .num c => a == c
    | .bool c => a == (if c then (1 : Int) else 0)
    | _ => false
  | .str a, b => match b with | .str c => a == c | _ => false
  | .arr a, b => match b with | .arr c => JsonList.pyEqL a c | _ => false
  | .obj a, b =>
    match b with
    | .obj c => JsonObj.subEq a c && JsonObj.keysSub c a
    | _ => false

def JsonList.pyEqL : JsonList → JsonList → Bool
  | .nil, c => match c with | .nil => true | _ => false
  | .cons x xs, c =>
    match c with
    | .cons y ys => x.pyEq y && JsonList.pyEqL xs ys
    | _ => false

/-- Every pair of the first object has a `pyEq`-equal value in the second. -/
def JsonObj.subEq : JsonObj → JsonObj → Bool
  | .nil, _ => true
  | .cons k v tl, b =>
    (match b.lookup k with
     | some v2 => v.pyEq v2
     | none => false) && JsonObj.subEq tl b
end

mutual
/-- All objects occurring in the value have pairwise distinct keys
(always true of values produced by `json.loads`). -/
def Json.wfKeys : Json → Bool
  | .null => true
  | .bool _ => true
  | .num _ => true
  | .str _ => true
  | .arr xs => xs.wfKeysL
  | .obj fs => fs.keysNodup && fs.wfKeysO

def JsonList.wfKeysL : JsonList → Bool
  | .nil => true
  | .cons x xs => x.wfKeys && xs.wfKeysL

def JsonObj.wfKeysO : JsonObj → Bool
  | .nil => true
  | .cons _ v tl => v.wfKeys && tl.wfKeysO
end

mutual
/-- Fuel measure for the JSON parser: an upper bound on the number of
nested parser calls needed to re-parse a serialized value. -/
def Json.weight : Json → Nat
  | .null => 1
  | .bool _ => 1
  | .num _ => 1
  | .str _ => 1
  | .arr xs => 1 + xs.weightL
  | .obj fs => 1 + fs.weightO

def JsonList.weightL : JsonList → Nat
  | .nil => 0
  | .cons x xs => 1 + x.weight + xs.weightL

def JsonObj.weightO : JsonObj → Nat
  | .nil => 0
  | .cons _ v tl => 1 + v.weight + tl.weightO
end

/-- Lexicographic code-point comparison of strings, as used by Python's
`sorted` on `str` (this is what `json.dumps(..., sort_keys=True)` sorts
keys with). -/
def charListLt : List Char → List Char → Bool
  | [], [] => false
  | [], _ :: _ => true
  | _ :: _, [] => false
  | a :: as, b :: bs => a.toNat < b.toNat || (a = b && charListLt as bs)

def strLt (a b : String) : Bool := charListLt a.data b.data

/-- Stable insertion of a key/value pair into a key-sorted object. -/
def sortIns (k : String) (v : Json) : JsonObj → JsonObj
  | .nil => .cons k v .nil
  | .cons k2 v2 tl =>
    if strLt k k2 then .cons k v (.cons k2 v2 tl)
    else .cons k2 v2 (sortIns k v tl)

/-- Insertion sort of an object's fields by key. -/
def sortFields : JsonObj → JsonObj
  | .nil => .nil
  | .cons k v tl => sortIns k v (sortFields tl)

mutual
/-- Recursively sort the keys of every object in a value.  Serializing the
result without sorting equals Python `json.dumps(..., sort_keys=True)`. -/
def Json.sortAll : Json → Json
  | .null => .null
  | .bool b => .bool b
  | .num n => .num n
  | .str s => .str s
  | .arr xs => .arr xs.sortAllL
  | .obj fs => .obj (sortFields fs.sortAllO)

def JsonList.sortAllL : JsonList → JsonList
  | .nil => .nil
  | .cons x xs => .cons x.sortAll xs.sortAllL

def JsonObj.sortAllO : JsonObj → JsonObj
  | .nil => .nil
  | .cons k v tl => .cons k v.sortAll tl.sortAllO
end

/-- Lowercase hexadecimal digit, as produced by CPython's `json` encoder. -/
def hexDigitChar (n : Nat) : Char :=
  if n < 10 then Char.ofNat (48 + n) else Char.ofNat (87 + n)

def hex4 (n : Nat) : List Char :=
  [hexDigitChar (n / 4096 % 16), hexDigitChar (n / 256 % 16),
   hexDigitChar (n / 16 % 16), hexDigitChar (n % 16)]

/-- Escape of a single character in a JSON string literal, following
CPython's `json.encoder` with the default `ensure_ascii=True`: quote and
backslash are escaped, the controls BS/TAB/LF/FF/CR get short escapes,
printable ASCII is emitted verbatim, and everything else becomes
`\uXXXX` (a surrogate pair for code points above U+FFFF). -/
def escapeChar (c : Char) : List Char :=
  if c = '"' then ['\\', '"']
  else if c = '\\' then ['\\', '\\']
  else if c = Char.ofNat 8 then ['\\', 'b']
  else if c = Char.ofNat 9 then ['\\', 't']
  else if c = Char.ofNat 10 then ['\\', 'n']
  else if c = Char.ofNat 12 then ['\\', 'f']
  else if c = Char.ofNat 13 then ['\\', 'r']
  else if 32 ≤ c.toNat ∧ c.toNat ≤ 126 then [c]
  else if c.toNat < 65536 then '\\' :: 'u' :: hex4 c.toNat
  else
    ('\\' :: 'u' :: hex4 (55296 + (c.toNat - 65536) / 1024)) ++
      ('\\' :: 'u' :: hex4 (56320 + (c.toNat - 65536) % 1024))

/-- JSON string literal for a Python string. -/
def quoteString (s : String) : List Char :=
  '"' :: s.data.flatMap escapeChar ++ ['"']

/-- Decimal digits of a natural number (fuel-based so that it reduces in
the kernel); `natDigits n` is Python `str(n)` for `n ≥ 0`. -/
def natDigitsAux : Nat → Nat → List Char
  | 0, _ => []
  | fuel + 1, n =>
    if n < 10 then [Char.ofNat (48 + n)]
    else natDigitsAux fuel (n / 10) ++ [Char.ofNat (48 + n % 10)]

def natDigits (n : Nat) : List Char := natDigitsAux (n + 1) n

/-- Python `str` of an int, as emitted by `json.dumps` for integers. -/
def intRepr : Int → List Char
  | .ofNat n => natDigits n
  | .negSucc m => '-' :: natDigits (m + 1)

mutual
/-- Body of CPython `json.dumps(j, separators=(",", ":"))`: compact
separators, no whitespace, keys emitted in dict order, `ensure_ascii`
escaping.  (`sort_keys=True` is obtained by serializing `j.sortAll`.) -/
def Json.dumpsPlain : Json → List Char
  | .null => "null".data
  | .bool true => "true".data
  | .bool false => "false".data
  | .num n => intRepr n
  | .str s => quoteString s
  | .arr xs => '[' :: xs.dumpsElems ++ [']']
  | .obj fs => '\x7b' :: fs.dumpsFields ++ ['\x7d']

def JsonList.dumpsElems : JsonList → List Char
  | .nil => []
  | .cons x .nil => x.dumpsPlain
  | .cons x (.cons y ys) => x.dumpsPlain ++ ',' :: (JsonList.cons y ys).dumpsElems

def JsonObj.dumpsFields : JsonObj → List Char
  | .nil => []
  | .cons k v .nil => quoteString k ++ ':' :: v.dumpsPlain
  | .cons k v (.cons k2 v2 tl) =>
    quoteString k ++ ':' :: v.dumpsPlain ++ ',' :: (JsonObj.cons k2 v2 tl).dumpsFields
end

/-- Python `json.dumps(j, separators=(",", ":"), sort_keys=sortKeys)`. -/
def pyDumps (sortKeys : Bool) (j : Json) : List Char :=
  if sortKeys then j.sortAll.dumpsPlain else j.dumpsPlain

/-- The 64 characters of the base64url alphabet (RFC 4648 `-_` variant),
used by Python's `base64.urlsafe_b64encode`. -/
def b64urlAlphabet : List Char :=
  "ABCDEFGHIJKLMNOPQRSTUVWXYZabcdefghijklmnopqrstuvwxyz0123456789-_".data

def alphaChar (n : Nat) : Char := b64urlAlphabet.getD n 'A'

/-- Value of a base64url alphabet character (used when decoding). -/
def b64CharVal (c : Char) : Option Nat :=
  if 65 ≤ c.toNat ∧ c.toNat ≤ 90 then some (c.toNat - 65)
  else if 97 ≤ c.toNat ∧ c.toNat ≤ 122 then some (c.toNat - 97 + 26)
  else if 48 ≤ c.toNat ∧ c.toNat ≤ 57 then some (c.toNat - 48 + 52)
  else if c = '-' then some 62
  else if c = '_' then some 63
  else none

/-- `base64.urlsafe_b64encode` on a byte string, including `=` padding. -/
def b64EncodeRaw : List Nat → List Char
  | [] => []
  | [b1] =>
    [alphaChar (b1 / 4), alphaChar (b1 % 4 * 16), '=', '=']
  | [b1, b2] =>
    [alphaChar (b1 / 4), alphaChar (b1 % 4 * 16 + b2 / 16), alphaChar (b2 % 16 * 4), '=']
  | b1 :: b2 :: b3 :: rest =>
    alphaChar (b1 / 4) :: alphaChar (b1 % 4 * 16 + b2 / 16) ::
    alphaChar (b2 % 16 * 4 + b3 / 64) :: alphaChar (b3 % 64) :: b64EncodeRaw rest

/-- Python `s.rstrip("=")`. -/
def rstripEq (cs : List Char) : List Char :=
  ((cs.reverse).dropWhile (fun c => c = '=')).reverse

/-- The client's `_base64url_random_bytes` applied to already-drawn random
bytes: `base64.urlsafe_b64encode(bytes).decode().rstrip("=")`
(`src/_client_copy.py` lines 33-34). -/
def base64urlNoPad (bytes : List Nat) : List Char :=
  rstripEq (b64EncodeRaw bytes)

/-- `base64.urlsafe_b64decode` on a correctly padded base64url string
(the embedding models the stdlib decoder on well-formed input; inputs
whose length is not a multiple of 4 or that contain characters outside
the alphabet are rejected, as the stdlib raises `binascii.Error`). -/
def b64DecodePadded : List Char → Option (List Nat)
  | [] => some []
  | [c1, c2, p1, p2] =>
    if p1 = '=' ∧ p2 = '=' then do
      let v1 ← b64CharVal c1
      let v2 ← b64CharVal c2
      pure [v1 * 4 + v2 / 16]
    else if p2 = '=' then do
      let v1 ← b64CharVal c1
      let v2 ← b64CharVal c2
      let v3 ← b64CharVal p1
      pure [v1 * 4 + v2 / 16, v2 % 16 * 16 + v3 / 4]
    else do
      let v1 ← b64CharVal c1
      let v2 ← b64CharVal c2
      let v3 ← b64CharVal p1
      let v4 ← b64CharVal p2
      pure [v1 * 4 + v2 / 16, v2 % 16 * 16 + v3 / 4, v3 % 4 * 64 + v4]
  | c1 :: c2 :: c3 :: c4 :: rest => do
    let v1 ← b64CharVal c1
    let v2 ← b64CharVal c2
    let v3 ← b64CharVal c3
    let v4 ← b64CharVal c4
    let tail ← b64DecodePadded rest
    pure ((v1 * 4 + v2 / 16) :: (v2 % 16 * 16 + v3 / 4) :: (v3 % 4 * 64 + v4) :: tail)
  | _ => none

/-- UTF-8 encoding of one unicode scalar value. -/
def utf8EncodeChar (c : Char) : List Nat :=
  if c.toNat < 128 then [c.toNat]
  else if c.toNat < 2048 then [192 + c.toNat / 64, 128 + c.toNat % 64]
  else if c.toNat < 65536 then
    [224 + c.toNat / 4096, 128 + c.toNat / 64 % 64, 128 + c.toNat % 64]
  else
    [240 + c.toNat / 262144, 128 + c.toNat / 4096 % 64,
     128 + c.toNat / 64 % 64, 128 + c.toNat % 64]

/-- Python `str.encode()` (UTF-8). -/
def utf8Encode (cs : List Char) : List Nat := cs.flatMap utf8EncodeChar

/-- Continuation byte test. -/
def isCont (b : Nat) : Bool := 128 ≤ b && b < 192

/-- Decode one multi-byte UTF-8 sequence starting with leading byte `b`
(strict: overlong encodings, surrogates and out-of-range code points are
rejected). -/
def utf8DecodeMulti (b : Nat) (rest : List Nat) : Option (Char × List Nat) :=
  if 192 ≤ b ∧ b < 224 then
    match rest with
    | b2 :: r =>
      if isCont b2 then
        if 128 ≤ (b - 192) * 64 + (b2 - 128) then
          some (Char.ofNat ((b - 192) * 64 + (b2 - 128)), r)
        else none
      else none
    | [] => none
  else if 224 ≤ b ∧ b < 240 then
    match rest with
    | b2 :: b3 :: r =>
      if isCont b2 && isCont b3 then
        if 2048 ≤ (b - 224) * 4096 + (b2 - 128) * 64 + (b3 - 128) ∧
            ¬(55296 ≤ (b - 224) * 4096 + (b2 - 128) * 64 + (b3 - 128) ∧
              (b - 224) * 4096 + (b2 - 128) * 64 + (b3 - 128) < 57344) then
          some (Char.ofNat ((b - 224) * 4096 + (b2 - 128) * 64 + (b3 - 128)), r)
        else none
      else none
    | _ => none
  else if 240 ≤ b ∧ b < 248 then
    match rest with
    | b2 :: b3 :: b4 :: r =>
      if isCont b2 && isCont b3 && isCont b4 then
        if 65536 ≤ (b - 240) * 262144 + (b2 - 128) * 4096 + (b3 - 128) * 64 + (b4 - 128) ∧
            (b - 240) * 262144 + (b2 - 128) * 4096 + (b3 - 128) * 64 + (b4 - 128) < 1114112 then
          some (Char.ofNat
            ((b - 240) * 262144 + (b2 - 128) * 4096 + (b3 - 128) * 64 + (b4 - 128)), r)
        else none
      else none
    | _ => none
  else none

/-- Python `bytes.decode()`: strict UTF-8 decoding
(`UnicodeDecodeError` is modelled as `none`).  Fuel-based recursion;
every step consumes at least one byte, so `length` fuel always
suffices. -/
def utf8DecodeAux : Nat → List Nat → Option (List Char)
  | _, [] => some []
  | 0, _ :: _ => none
  | fuel + 1, b :: rest =>
    if b < 128 then (utf8DecodeAux fuel rest).map (Char.ofNat b :: ·)
    else
      match utf8DecodeMulti b rest with
      | some p => (utf8DecodeAux fuel p.2).map (p.1 :: ·)
      | none => none

def utf8Decode (bytes : List Nat) : Option (List Char) :=
  utf8DecodeAux bytes.length bytes

/-- Python `s.split(".")` (always returns at least one segment). -/
def splitDot : List Char → List (List Char)
  | [] => [[]]
  | c :: cs =>
    if c = '.' then [] :: splitDot cs
    else
      match splitDot cs with
      | s :: rest => (c :: s) :: rest
      | [] => [[c]]

/-- Whitespace skipping of CPython's `json` decoder (space, tab, LF, CR). -/
def skipWs : List Char → List Char
  | c :: rest =>
    if c = ' ' ∨ c = '\t' ∨ c = '\n' ∨ c = '\r' then skipWs rest else c :: rest
  | [] => []

def hexDigitVal (c : Char) : Option Nat :=
  if 48 ≤ c.toNat ∧ c.toNat ≤ 57 then some (c.toNat - 48)
  else if 97 ≤ c.toNat ∧ c.toNat ≤ 102 then some (c.toNat - 87)
  else if 65 ≤ c.toNat ∧ c.toNat ≤ 70 then some (c.toNat - 55)
  else none

def hex4Val (a b c d : Char) : Option Nat := do
  let va ← hexDigitVal a
  let vb ← hexDigitVal b
  let vc ← hexDigitVal c
  let vd ← hexDigitVal d
  pure (va * 4096 + vb * 256 + vc * 16 + vd)

/-- One escape sequence of a JSON string literal (the characters after
the backslash), following CPython's `json` decoder: short escapes,
`\uXXXX` escapes, and surrogate-pair combination.  A lone surrogate
escape would produce a Python string that is not a sequence of unicode
scalar values; such strings are outside this embedding and are modelled
as a failure. -/
def parseLowSurrogate (n : Nat) : List Char → Option (Char × List Char)
  | e1 :: e2 :: g1 :: g2 :: g3 :: g4 :: r2 =>
    if e1 = '\\' ∧ e2 = 'u' then
      match hex4Val g1 g2 g3 g4 with
      | some m =>
        if 56320 ≤ m ∧ m < 57344 then
          some (Char.ofNat (65536 + (n - 55296) * 1024 + (m - 56320)), r2)
        else none
      | none => none
    else none
  | _ => none

def parseEscape : List Char → Option (Char × List Char)
  | '"' :: r => some ('"', r)
  | '\\' :: r => some ('\\', r)
  | '/' :: r => some ('/', r)
  | 'b' :: r => some (Char.ofNat 8, r)
  | 'f' :: r => some (Char.ofNat 12, r)
  | 'n' :: r => some (Char.ofNat 10, r)
  | 'r' :: r => some (Char.ofNat 13, r)
  | 't' :: r => some (Char.ofNat 9, r)
  | 'u' :: h1 :: h2 :: h3 :: h4 :: r =>
    (match hex4Val h1 h2 h3 h4 with
    | none => none
    | some n =>
      if n < 55296 ∨ 57344 ≤ n then some (Char.ofNat n, r)
      else if n < 56320 then parseLowSurrogate n r
      else none)
  | _ => none

/-- Body of a JSON string literal (after the opening quote), with
`strict=True`: raw control characters are rejected.  Fuel-based
recursion; every step consumes at least one character, so `length` fuel
always suffices. -/
def parseStringAux : Nat → List Char → Option (List Char × List Char)
  | 0, _ => none
  | _ + 1, [] => none
  | fuel + 1, c :: rest =>
    if c = '"' then some ([], rest)
    else if c = '\\' then
      match parseEscape rest with
      | some p => (parseStringAux fuel p.2).map fun q => (p.1 :: q.1, q.2)
      | none => none
    else if 32 ≤ c.toNat then
      (parseStringAux fuel rest).map fun q => (c :: q.1, q.2)
    else none

def parseStringBody (l : List Char) : Option (List Char × List Char) :=
  parseStringAux l.length l

def parseDigits : List Char → Nat → Nat × List Char
  | [], acc => (acc, [])
  | c :: rest, acc =>
    if c.isDigit then parseDigits rest (acc * 10 + (c.toNat - 48)) else (acc, c :: rest)

/-- After an integer literal the next character must not extend it into a
longer number token.  A following `.`, `e` or `E` would make the token a
float; floats are outside this embedding, so such inputs are rejected
rather than parsed. -/
def numBoundaryOk : List Char → Bool
  | [] => true
  | c :: _ => !(c.isDigit || c = '.' || c = 'e' || c = 'E')

def parseNumAux (input : List Char) : Option (Nat × List Char) :=
  match input with
  | [] => none
  | c :: rest =>
    if c = '0' then
      if numBoundaryOk rest then some (0, rest) else none
    else if c.isDigit then
      let p := parseDigits rest (c.toNat - 48)
      if numBoundaryOk p.2 then some p else none
    else none

/-- Integer literal of the JSON grammar (no leading zeros, optional minus). -/
def parseNumber (input : List Char) : Option (Json × List Char) :=
  if input.head? = some '-' then
    (parseNumAux input.tail).map fun p => (Json.num (-(p.1 : Int)), p.2)
  else (parseNumAux input).map fun p => (Json.num (p.1 : Int), p.2)

/-- Dispatch on the first character of one JSON value, following CPython's
`json` decoder (`json.scanner`); the parsers for array elements and object
members are passed in as functions so that the recursion lives entirely in
`parseValue` below. -/
def parseValueBody
    (pE : List Char → Option (JsonList × List Char))
    (pM : List Char → Option (JsonObj × List Char)) :
    List Char → Option (Json × List Char)
  | [] => none
  | c :: rest =>
    if c = 'n' then
      match rest with
      | 'u' :: 'l' :: 'l' :: r => some (.null, r)
      | _ => none
    else if c = 't' then
      match rest with
      | 'r' :: 'u' :: 'e' :: r => some (.bool true, r)
      | _ => none
    else if c = 'f' then
      match rest with
      | 'a' :: 'l' :: 's' :: 'e' :: r => some (.bool false, r)
      | _ => none
    else if c = '"' then
      (parseStringBody rest).map fun p => (Json.str (String.mk p.1), p.2)
    else if c = '[' then
      if (skipWs rest).head? = some ']' then some (.arr .nil, (skipWs rest).tail)
      else (pE (skipWs rest)).map fun p => (Json.arr p.1, p.2)
    else if c = '\x7b' then
      if (skipWs rest).head? = some '\x7d' then some (.obj .nil, (skipWs rest).tail)
      else (pM (skipWs rest)).map fun p => (Json.obj p.1.dedup, p.2)
    else parseNumber (c :: rest)

mutual
/-- One JSON value: fuel-based recursion; `loads` below supplies
sufficient fuel. -/
def parseValue : Nat → List Char → Option (Json × List Char)
  | 0, _ => none
  | fuel + 1, input => parseValueBody (parseElements fuel) (parseMembers fuel) input

def parseElements : Nat → List Char → Option (JsonList × List Char)
  | 0, _ => none
  | fuel + 1, input =>
    (parseValue fuel input).bind fun p =>
      if (skipWs p.2).head? = some ',' then
        (parseElements fuel (skipWs (skipWs p.2).tail)).map fun q =>
          (JsonList.cons p.1 q.1, q.2)
      else if (skipWs p.2).head? = some ']' then some (.cons p.1 .nil, (skipWs p.2).tail)
      else none

/-- Members of an object; the raw key/value pairs in textual order are
returned, and `parseValue` builds the Python dict from them. -/
def parseMembers : Nat → List Char → Option (JsonObj × List Char)
  | 0, _ => none
  | fuel + 1, input =>
    if input.head? = some '"' then
      (parseStringBody input.tail).bind fun kp =>
        if (skipWs kp.2).head? = some ':' then
          (parseValue fuel (skipWs (skipWs kp.2).tail)).bind fun vp =>
            if (skipWs vp.2).head? = some ',' then
              (parseMembers fuel (skipWs (skipWs vp.2).tail)).map fun q =>
                (JsonObj.cons (String.mk kp.1) vp.1 q.1, q.2)
            else if (skipWs vp.2).head? = some '\x7d' then
              some (.cons (String.mk kp.1) vp.1 .nil, (skipWs vp.2).tail)
            else none
        else none
    else none
end

/-- Python `json.loads`: skip leading whitespace, parse one value, require
only whitespace afterwards.  Every parser step either consumes input or
is one of at most two nested calls per consumed character, so the fuel
`2 * length + 2` never runs out on inputs the Python decoder accepts. -/
def loads (cs : List Char) : Option Json :=
  let cs1 := skipWs cs
  match parseValue (2 * cs1.length + 2) cs1 with
  | some (v, rest) => if skipWs rest = [] then some v else none
  | none => none

/-- The distinct exception classes `_decode_jwt_payload` can raise; all
four are (subclasses of) `ValueError` in Python. -/
inductive DecodeErr where
  | notAJwt
  | binascii
  | unicode
  | jsonDecode
  deriving DecidableEq

/-- The client's `_decode_jwt_payload` (`src/_client_copy.py` lines
37-44): split on dots, re-pad the second segment, base64url-decode,
UTF-8-decode, JSON-parse. -/
def decodeJwtChars (token : List Char) : Except DecodeErr Json :=
  let parts := splitDot token
  if parts.length < 2 then .error .notAJwt
  else
    let payloadB64 := parts.getD 1 []
    let padded := payloadB64 ++ List.replicate ((4 - payloadB64.length % 4) % 4) '='
    match b64DecodePadded padded with
    | none => .error .binascii
    | some bytes =>
      match utf8Decode bytes with
      | none => .error .unicode
      | some chars =>
        match loads chars with
        | none => .error .jsonDecode
        | some j => .ok j

def decodeJwtPayload (token : String) : Except DecodeErr Json :=
  decodeJwtChars token.data

/-- Environment of a run of the smoke-test client: configuration values
after `_env`/`os.getenv` processing, plus the bytes drawn by
`os.urandom(700)`. -/
structure Env where
  adminUrl : String
  asUrl : String
  apiKey : String
  resource : String
  connectionName : String
  randomBytes : List Nat
  deriving DecidableEq

/-- The two HTTP responses the outside world may return to the client.
`none` bodies model responses whose body is not valid JSON
(`resp.json()` raises). -/
structure World where
  createStatus : Nat
  createBody : Option Json
  tokenStatus : Nat
  tokenBody : Option Json

/-- The `POST {admin_url}/v1/connections/create` request
(`src/_client_copy.py` lines 59-68). -/
structure CreateRequest where
  url : String
  authorization : String
  name : String
  provider : String
  backingType : String
  encryptedCredentials : List Char
  timeout : Option Nat
  deriving DecidableEq

/-- The `POST {as_url}/oauth2/token` form request
(`src/_client_copy.py` lines 74-84). -/
structure TokenRequest where
  url : String
  grantType : String
  subjectToken : String
  subjectTokenType : String
  resource : String
  ext : List Char
  timeout : Option Nat
  deriving DecidableEq

/-- HTTP requests emitted by the client, in order. -/
inductive Event where
  | create (r : CreateRequest)
  | token (r : TokenRequest)
  deriving DecidableEq

def Event.isToken : Event → Bool
  | .create _ => false
  | .token _ => true

/-- Exceptions `main()` can raise. -/
inductive PyExc where
  | httpStatusError
  | jsonBodyError
  | noHandle
  | noAccessToken
  | attributeError
  | valueError (e : DecodeErr)
  deriving DecidableEq

/-- Result of a run of `main()`: either a return value (the process exit
code) or an uncaught exception. -/
inductive Outcome where
  | exit (code : Nat)
  | raised (e : PyExc)
  deriving DecidableEq

/-- `httpx.Response.raise_for_status` raises `HTTPStatusError` for every
non-2xx status: it returns the response only when `is_success`
(`200 ≤ code ≤ 299`) holds.  The client does not follow redirects by
default, so informational, redirect, client-error and server-error
responses all raise. -/
def statusError (s : Nat) : Bool := !(200 ≤ s && s < 300)

/-- The client is constructed as `httpx.Client(timeout=10.0)`; every
request issued through it carries this timeout (seconds; the configured
value `10.0` is integral, so it is modelled as a natural number). -/
def clientTimeout : Option Nat := some 10

/-- The object serialized into the `ext` form parameter:
`{"connections": {connection_name: handle}}`. -/
def extJson (name : String) (handle : Json) : Json :=
  .obj (.cons "connections" (.obj (.cons name handle .nil)) .nil)

def mkCreateRequest (env : Env) : CreateRequest where
  url := env.adminUrl ++ "/v1/connections/create"
  authorization := "Bearer " ++ env.apiKey
  name := env.connectionName
  provider := env.connectionName
  backingType := "api_key"
  encryptedCredentials := base64urlNoPad env.randomBytes
  timeout := clientTimeout

def mkTokenRequest (env : Env) (handle : Json) : TokenRequest where
  url := env.asUrl ++ "/oauth2/token"
  grantType := "urn:ietf:params:oauth:grant-type:token-exchange"
  subjectToken := env.apiKey
  subjectTokenType := "urn:ietf:params:oauth:token-type:api_key"
  resource := env.resource
  ext := pyDumps true (extJson env.connectionName handle)
  timeout := clientTimeout

/-- Continuation of `main()` after the token-exchange request has been
sent: `raise_for_status`, extract `access_token`, decode the JWT payload
and run the two assertions (`src/_client_copy.py` lines 85-104). -/
def postTokenOutcome (env : Env) (w : World) (handle : Json) : Outcome :=
  if statusError w.tokenStatus then .raised .httpStatusError
  else
    match w.tokenBody with
    | none => .raised .jsonBodyError
    | some (Json.obj tf) =>
      let accessToken := (tf.lookup "access_token").getD Json.null
      if accessToken.truthy = false then .raised .noAccessToken
      else
        match accessToken with
        | Json.str tok =>
          match decodeJwtPayload tok with
          | .error e => .raised (.valueError e)
          | .ok (Json.obj pf) =>
            let audOk :=
              match pf.lookup "aud" with
              | some a => a.pyEq (Json.str env.resource)
              | none => false
            if audOk = false then .exit 2
            else
              let connOk :=
                match pf.lookup "ddls:connections" with
                | some (Json.obj cs) =>
                  (match cs.lookup env.connectionName with
                   | some v => v.pyEq handle
                   | none => false)
                | _ => false
              if connOk = false then .exit 3 else .exit 0
          | .ok _ => .raised .attributeError
        | _ => .raised .attributeError
    | some _ => .raised .attributeError

/-- The client's `main()` (`src/_client_copy.py` lines 47-104), as a
function of the environment and of the two responses the world returns;
the first component records the HTTP requests actually sent, in order. -/
def mainRun (env : Env) (w : World) : List Event × Outcome :=
  let creq := mkCreateRequest env
  if statusError w.createStatus then ([.create creq], .raised .httpStatusError)
  else
    match w.createBody with
    | none => ([.create creq], .raised .jsonBodyError)
    | some (Json.obj cf) =>
      let handle := (cf.lookup "handle").getD Json.null
      if handle.truthy = false then ([.create creq], .raised .noHandle)
      else
        ([.create creq, .token (mkTokenRequest env handle)],
         postTokenOutcome env w handle)
    | some _ => ([.create creq], .raised .attributeError)

def JsonList.ofList : List Json → JsonList
  | [] => .nil
  | x :: xs => .cons x (JsonList.ofList xs)

/-- A JSON array from a Lean list. -/
def jarr (xs : List Json) : Json := .arr (JsonList.ofList xs)

def JsonObj.keys : JsonObj → List String
  | .nil => []
  | .cons k _ tl => k :: keys tl

/-- Python `for x in j`: lists iterate elements, strings iterate one-char
strings, dicts iterate keys; other values raise `TypeError` (`none`). -/
def pyIter : Json → Option (List Json)
  | .arr xs => some xs.toList
  | .str s => some (s.data.map fun c => Json.str (String.mk [c]))
  | .obj fs => some (fs.keys.map Json.str)
  | _ => none

def leadsWith : List Char → List Char → Bool
  | [], _ => true
  | _ :: _, [] => false
  | a :: as, b :: bs => a = b && leadsWith as bs

def containsSub (sub s : List Char) : Bool :=
  match s with
  | [] => leadsWith sub []
  | _ :: tl => leadsWith sub s || containsSub sub tl

/-- Python `k in j` for a string `k`: key test on dicts, membership on
lists, substring test on strings; `TypeError` (`none`) otherwise. -/
def pyContains (k : String) (j : Json) : Option Bool :=
  match j with
  | .obj fs => some (fs.hasKey k)
  | .arr xs => some (xs.toList.any fun x => x.pyEq (.str k))
  | .str s => some (containsSub k.data s.data)
  | _ => none

/-- Each element must be a dict (pydantic validation of `list[dict]`
fields). -/
def asObjList : List Json → Option (List JsonObj)
  | [] => some []
  | .obj o :: rest => (asObjList rest).map (o :: ·)
  | _ => none

/-- The `response.error` object of a dispatch response. -/
structure DispatchError where
  message : String
  deriving DecidableEq

/-- The dispatch response consumed by the tool wrappers: `success`, the
inner response body (`response.response.body`, with Python `None`
modelled as JSON null) and the optional error object. -/
structure DispatchReply where
  success : Bool
  body : Json
  error : Option DispatchError
  deriving DecidableEq

/-- `response.error.message if response.error else fallback`. -/
def dispatchMsg (resp : DispatchReply) (fallback : String) : String :=
  match resp.error with
  | some e => e.message
  | none => fallback

/-- `GhResult` (`src/gh.py` lines 21-27): a pydantic dataclass whose
`data` field is `Any` (never rejected) and whose defaults are `None`. -/
structure GhResult where
  success : Bool
  data : Json := .null
  error : Option String := none
  deriving DecidableEq

/-- The `_req` helper (`src/gh.py` lines 30-36) as a function of the
dispatch response (the request construction has no bearing on the
returned value). -/
def gh_req (resp : DispatchReply) : GhResult :=
  if resp.success then { success := true, data := resp.body }
  else { success := false, error := some (dispatchMsg resp "Request failed") }

/-- Shape of the ten GitHub tools that return `_req`'s result unchanged. -/
def ghPassthrough (resp : DispatchReply) : Option GhResult :=
  some (gh_req resp)

def gh_get_repo := ghPassthrough
def gh_get_file := ghPassthrough
def gh_put_file := ghPassthrough
def gh_delete_file := ghPassthrough
def gh_get_issue := ghPassthrough
def gh_get_pr := ghPassthrough
def gh_dispatch_workflow := ghPassthrough
def gh_cancel_workflow_run := ghPassthrough
def gh_rerun_workflow := ghPassthrough
def gh_list_actions_variables := ghPassthrough
def gh_get_commit_status := ghPassthrough
def gh_list_discussions := ghPassthrough

/-- `gh_whoami` (`src/gh.py` lines 47-58); `none` models the
`AttributeError` raised by `.get` on a non-dict body. -/
def gh_whoami (resp : DispatchReply) : Option GhResult :=
  let r := gh_req resp
  if r.success then
    match r.data with
    | .obj u =>
      some { success := true,
             data := .obj (.cons "login" ((u.lookup "login").getD .null)
                     (.cons "name" ((u.lookup "name").getD .null)
                     (.cons "email" ((u.lookup "email").getD .null) .nil))) }
    | _ => none
  else some r

/-- Shape of the GitHub tools that map a projection over a list body and
fall back to `GhResult(success=True, data=[])` on non-list bodies. -/
def ghListShape (item : Json → Option (List Json)) (resp : DispatchReply) : Option GhResult :=
  let r := gh_req resp
  if r.success then
    match r.data with
    | .arr xs => (xs.toList.mapM item).map fun items =>
        { success := true, data := jarr items.flatten }
    | _ => some { success := true, data := .arr .nil }
  else some r

/-- Shape of the GitHub tools that iterate over a key of a dict body and
fall back to `GhResult(success=True, data=[])` on non-dict bodies. -/
def ghDictShape (key : String) (item : Json → Option (List Json))
    (resp : DispatchReply) : Option GhResult :=
  let r := gh_req resp
  if r.success then
    match r.data with
    | .obj o =>
      match pyIter ((o.lookup key).getD (.arr .nil)) with
      | none => none
      | some ws => (ws.mapM item).map fun items =>
          { success := true, data := jarr items.flatten }
    | _ => some { success := true, data := .arr .nil }
  else some r

def repoItem (x : Json) : Option (List Json) :=
  match x with
  | .obj o => some [.obj (.cons "name" ((o.lookup "name").getD .null)
      (.cons "full_name" ((o.lookup "full_name").getD .null)
      (.cons "stars" ((o.lookup "stargazers_count").getD (.num 0)) .nil)))]
  | _ => none

def gh_list_repos : DispatchReply → Option GhResult := ghListShape repoItem

def issueItem (i : Json) : Option (List Json) :=
  match pyContains "pull_request" i with
  | none => none
  | some true => some []
  | some false =>
    match i with
    | .obj o => some [.obj (.cons "number" ((o.lookup "number").getD .null)
        (.cons "title" ((o.lookup "title").getD .null)
        (.cons "state" ((o.lookup "state").getD .null) .nil)))]
    | _ => none

def gh_list_issues : DispatchReply → Option GhResult := ghListShape issueItem

def prItem (p : Json) : Option (List Json) :=
  match p with
  | .obj o =>
    match (o.lookup "head").getD (.obj .nil), (o.lookup "base").getD (.obj .nil) with
    | .obj ho, .obj bo =>
      some [.obj (.cons "number" ((o.lookup "number").getD .null)
        (.cons "title" ((o.lookup "title").getD .null)
        (.cons "head" ((ho.lookup "ref").getD .null)
        (.cons "base" ((bo.lookup "ref").getD .null) .nil))))]
    | _, _ => none
  | _ => none

def gh_list_prs : DispatchReply → Option GhResult := ghListShape prItem

def wfItem (w : Json) : Option (List Json) :=
  match w with
  | .obj o => some [.obj (.cons "id" ((o.lookup "id").getD .null)
      (.cons "name" ((o.lookup "name").getD .null)
      (.cons "state" ((o.lookup "state").getD .null) .nil)))]
  | _ => none

def gh_list_workflows : DispatchReply → Option GhResult := ghDictShape "workflows" wfItem

def runItem (x : Json) : Option (List Json) :=
  match x with
  | .obj o => some [.obj (.cons "id" ((o.lookup "id").getD .null)
      (.cons "name" ((o.lookup "name").getD .null)
      (.cons "status" ((o.lookup "status").getD .null)
      (.cons "conclusion" ((o.lookup "conclusion").getD .null) .nil))))]
  | _ => none

def gh_list_workflow_runs : DispatchReply → Option GhResult :=
  ghDictShape "workflow_runs" runItem

def secretItem (s : Json) : Option (List Json) :=
  match s with
  | .obj o => some [.obj (.cons "name" ((o.lookup "name").getD .null)
      (.cons "updated_at" ((o.lookup "updated_at").getD .null) .nil))]
  | _ => none

def gh_list_secrets : DispatchReply → Option GhResult := ghDictShape "secrets" secretItem

def deployItem (d : Json) : Option (List Json) :=
  match d with
  | .obj o => some [.obj (.cons "id" ((o.lookup "id").getD .null)
      (.cons "environment" ((o.lookup "environment").getD .null)
      (.cons "ref" ((o.lookup "ref").getD .null) .nil)))]
  | _ => none

def gh_list_deployments : DispatchReply → Option GhResult := ghListShape deployItem

def envItem (e : Json) : Option (List Json) :=
  match e with
  | .obj o => some [.obj (.cons "id" ((o.lookup "id").getD .null)
      (.cons "name" ((o.lookup "name").getD .null) .nil))]
  | _ => none

def gh_list_environments : DispatchReply → Option GhResult :=
  ghDictShape "environments" envItem

def commitStatusItem (s : Json) : Option (List Json) :=
  match s with
  | .obj o => some [.obj (.cons "state" ((o.lookup "state").getD .null)
      (.cons "context" ((o.lookup "context").getD .null)
      (.cons "description" ((o.lookup "description").getD .null) .nil)))]
  | _ => none

def gh_list_commit_statuses : DispatchReply → Option GhResult :=
  ghListShape commitStatusItem

/-- `DatabaseResult` (`src/db.py` lines 40-46): a pydantic `BaseModel`;
the `data` field is typed `list[dict[str, Any]]`, so constructing it with
non-dict elements raises `ValidationError` (modelled as `none` in the
wrappers below). -/
structure DatabaseResult where
  success : Bool
  data : List JsonObj := []
  count : Option Int := none
  error : Option String := none
  deriving DecidableEq

/-- `DatabaseSingleResult` (`src/db.py` lines 49-54): `data` is typed
`dict[str, Any] | None`. -/
structure DatabaseSingleResult where
  success : Bool
  data : Option JsonObj := none
  error : Option String := none
  deriving DecidableEq

/-- `data = body if isinstance(body, list) else [body] if body else []`
(shared by the Supabase CRUD tools). -/
def wrapBody (body : Json) : List Json :=
  match body with
  | .arr xs => xs.toList
  | b => if b.truthy then [b] else []

/-- `db_select` (`src/db.py` lines 85-132) as a function of the dispatch
response. -/
def db_select (resp : DispatchReply) : Option DatabaseResult :=
  if resp.success then
    (asObjList (wrapBody resp.body)).map fun rows =>
      { success := true, data := rows, count := some (rows.length : Int) }
  else some { success := false, error := some (dispatchMsg resp "Query failed") }

/-- `db_insert` (`src/db.py` lines 135-160); `count` is the number of
rows the caller asked to insert. -/
def db_insert (nrows : Nat) (resp : DispatchReply) : Option DatabaseResult :=
  if resp.success then
    (asObjList (wrapBody resp.body)).map fun rows =>
      { success := true, data := rows, count := some (nrows : Int) }
  else some { success := false, error := some (dispatchMsg resp "Insert failed") }

/-- `db_update` (`src/db.py` lines 163-190). -/
def db_update (resp : DispatchReply) : Option DatabaseResult :=
  if resp.success then
    (asObjList (wrapBody resp.body)).map fun rows =>
      { success := true, data := rows, count := some (rows.length : Int) }
  else some { success := false, error := some (dispatchMsg resp "Update failed") }

/-- `db_delete` (`src/db.py` lines 193-219). -/
def db_delete (resp : DispatchReply) : Option DatabaseResult :=
  if resp.success then
    (asObjList (wrapBody resp.body)).map fun rows =>
      { success := true, data := rows }
  else some { success := false, error := some (dispatchMsg resp "Delete failed") }

/-- `db_upsert` (`src/db.py` lines 222-253). -/
def db_upsert (nrows : Nat) (resp : DispatchReply) : Option DatabaseResult :=
  if resp.success then
    (asObjList (wrapBody resp.body)).map fun rows =>
      { success := true, data := rows, count := some (nrows : Int) }
  else some { success := false, error := some (dispatchMsg resp "Upsert failed") }

/-- `db_get_by_id` (`src/db.py` lines 257-289): a non-empty list body
yields its first element, a dict body is returned whole, anything else
(including the empty list) is reported as `"Not found"`. -/
def db_get_by_id (resp : DispatchReply) : Option DatabaseSingleResult :=
  if resp.success then
    match resp.body with
    | .arr (.cons x _) =>
      match x with
      | .obj o => some { success := true, data := some o }
      | _ => none
    | .obj o => some { success := true, data := some o }
    | _ => some { success := false, error := some "Not found" }
  else some { success := false, error := some (dispatchMsg resp "Query failed") }

/-- `db_rpc` (`src/db.py` lines 292-315). -/
def db_rpc (resp : DispatchReply) : Option DatabaseResult :=
  if resp.success then
    (asObjList (wrapBody resp.body)).map fun rows =>
      { success := true, data := rows }
  else some { success := false, error := some (dispatchMsg resp "RPC call failed") }

/-- `WeatherResult` (`src/weather.py` lines 84-89): a pydantic
`BaseModel`; `data` is typed `dict[str, Any] | None`, so a body that is
neither a dict nor `None` raises `ValidationError` (`none`). -/
structure WeatherResult where
  success : Bool
  data : Option JsonObj := none
  error : Option String := none
  deriving DecidableEq

/-- `GeocodingResult` (`src/weather.py` lines 92-97). -/
structure GeocodingResult where
  success : Bool
  results : Option (List JsonObj) := none
  error : Option String := none
  deriving DecidableEq

/-- Pydantic validation of a `dict[str, Any] | None` field. -/
def asOptionalDict : Json → Option (Option JsonObj)
  | .null => some none
  | .obj o => some (some o)
  | _ => none

/-- The `_weather_request` helper (`src/weather.py` lines 118-130) as a
function of the dispatch response. -/
def weather_request (resp : DispatchReply) : Option WeatherResult :=
  if resp.success then
    (asOptionalDict resp.body).map fun d => { success := true, data := d }
  else some { success := false, error := some (dispatchMsg resp "Request failed") }

/-- The sixteen weather tools all return `_weather_request`'s result
unchanged. -/
def weather_forecast := weather_request
def weather_archive := weather_request
def weather_elevation := weather_request
def air_quality := weather_request
def marine_weather := weather_request
def flood_forecast := weather_request
def seasonal_forecast := weather_request
def climate_projection := weather_request
def ensemble_forecast := weather_request
def weather_dwd_icon := weather_request
def weather_gfs := weather_request
def weather_meteofrance := weather_request
def weather_ecmwf := weather_request
def weather_jma := weather_request
def weather_metno := weather_request
def weather_gem := weather_request

/-- Pydantic validation of a `list[dict[str, Any]] | None` field. -/
def asResultsField : Json → Option (Option (List JsonObj))
  | .null => some none
  | .arr xs => (asObjList xs.toList).map some
  | _ => none

/-- `geocoding` (`src/weather.py` lines 593-627). -/
def geocoding (resp : DispatchReply) : Option GeocodingResult :=
  if resp.success then
    let raw :=
      match resp.body with
      | .obj o => (o.lookup "results").getD (.arr .nil)
      | _ => .arr .nil
    (asResultsField raw).map fun rs => { success := true, results := rs }
  else some { success := false, error := some (dispatchMsg resp "Geocoding failed") }

def Event.timeout : Event → Option Nat
  | .create r => r.timeout
  | .token r => r.timeout

/-- The handle the registration step obtains, when it obtains one. -/
def issuedHandle (w : World) : Option Json :=
  if statusError w.createStatus then none
  else
    match w.createBody with
    | some (Json.obj cf) =>
      let h := (cf.lookup "handle").getD Json.null
      if h.truthy then some h else none
    | _ => none

/-- Number of `=` padding characters of the base64 encoding of `n` bytes. -/
def b64PadLen (n : Nat) : Nat := if n % 3 = 1 then 2 else if n % 3 = 2 then 1 else 0

/-- The invariant claimed for every tool result: success means no error
string, failure means a present error string. -/
def resultInv (success : Bool) (error : Option String) : Prop :=
  (success = true → error = none) ∧ (success = false → ∃ s, error = some s)

/-- Keys appear in (non-strict) ascending code-point order. -/
def JsonObj.keysSorted : JsonObj → Bool
  | .nil => true
  | .cons _ _ .nil => true
  | .cons k _ (.cons k2 v2 tl) => !strLt k2 k && JsonObj.keysSorted (.cons k2 v2 tl)

/-- Structural induction for `JsonObj` alone (the generated mutual
recursor has several motives, which the `induction` tactic rejects). -/
def JsonObj.indOn {motive : JsonObj → Prop} (fs : JsonObj) (hnil : motive .nil)
    (hcons : ∀ k v tl, motive tl → motive (.cons k v tl)) : motive fs :=
  match fs with
  | .nil => hnil
  | .cons k v tl => hcons k v tl (JsonObj.indOn tl hnil hcons)

/-- Structural induction for `JsonList` alone. -/
def JsonList.indOn {motive : JsonList → Prop} (xs : JsonList) (hnil : motive .nil)
    (hcons : ∀ x tl, motive tl → motive (.cons x tl)) : motive xs :=
  match xs with
  | .nil => hnil
  | .cons x tl => hcons x tl (JsonList.indOn tl hnil hcons)

/-- Characters that `json.dumps` emits verbatim inside string literals. -/
def plainChar (c : Char) : Bool :=
  decide (32 ≤ c.toNat) && decide (c.toNat ≤ 126) && decide (c ≠ '"') && decide (c ≠ '\\')

/-- Boundary condition needed after an integer literal; trivial for every
other kind of value. -/
def numOk : Json → List Char → Prop
  | Json.num _, rest => numBoundaryOk rest = true
  | _, _ => True

def c1Env : Env :=
  { adminUrl := "http://localhost:8000", asUrl := "http://localhost:4444",
    apiKey := "dsk_k", resource := "http://127.0.0.1:9000/mcp",
    connectionName := "github", randomBytes := List.replicate 700 0 }

/-- A world in which both the `aud` check and the `ddls:connections` check
fail: the token `x.e30.y` carries the empty JSON object `{}` as payload. -/
def c1World : World :=
  { createStatus := 200,
    createBody := some (Json.obj (.cons "handle" (Json.str "H1") .nil)),
    tokenStatus := 200,
    tokenBody := some (Json.obj (.cons "access_token" (Json.str "x.e30.y") .nil)) }

def c1wPayload : JsonObj :=
  .cons "aud" (Json.str "http://127.0.0.1:9000/mcp")
    (.cons "ddls:connections" (Json.obj (.cons "github" (Json.str "H1") .nil)) .nil)

def c1wToken : String :=
  String.mk ('x' :: '.' ::
    (base64urlNoPad (utf8Encode (Json.obj c1wPayload).dumpsPlain) ++ '.' :: ['y']))

def c1wWorld : World :=
  { createStatus := 200,
    createBody := some (Json.obj (.cons "handle" (Json.str "H1") .nil)),
    tokenStatus := 201,
    tokenBody := some (Json.obj (.cons "access_token" (Json.str c1wToken) .nil)) }


theorem mainRun_trace (env : Env) (w : World) :
    (mainRun env w).1 =
      match issuedHandle w with
      | none => [Event.create (mkCreateRequest env)]
      | some h => [Event.create (mkCreateRequest env), Event.token (mkTokenRequest env h)] := by
  unfold mainRun issuedHandle
  by_cases h1 : statusError w.createStatus = true
  · simp [h1]
  · simp only [Bool.not_eq_true] at h1
    rcases hcb : w.createBody with _ | b
    · simp [h1, hcb]
    · rcases b with _ | bb | nn | ss | xs | cf
      · simp [h1, hcb]
      · simp [h1, hcb]
      · simp [h1, hcb]
      · simp [h1, hcb]
      · simp [h1, hcb]
      · by_cases h2 : ((cf.lookup "handle").getD Json.null).truthy = true
        · simp [h1, hcb, h2]
        · simp only [Bool.not_eq_true] at h2
          simp [h1, hcb, h2]

theorem issuedHandle_some (w : World) (h : Json) (hi : issuedHandle w = some h) :
    statusError w.createStatus = false ∧
    ∃ cf, w.createBody = some (Json.obj cf) ∧
      ((cf.lookup "handle").getD Json.null).truthy = true ∧
      h = (cf.lookup "handle").getD Json.null := by
  unfold issuedHandle at hi
  by_cases h1 : statusError w.createStatus = true
  · simp [h1] at hi
  · simp only [Bool.not_eq_true] at h1
    rcases hcb : w.createBody with _ | b
    · simp [h1, hcb] at hi
    · rcases b with _ | bb | nn | ss | xs | cf
      · simp [h1, hcb] at hi
      · simp [h1, hcb] at hi
      · simp [h1, hcb] at hi
      · simp [h1, hcb] at hi
      · simp [h1, hcb] at hi
      · by_cases h2 : ((cf.lookup "handle").getD Json.null).truthy = true
        · simp [h1, hcb, h2] at hi
          exact ⟨h1, cf, rfl, h2, hi.symm⟩
        · simp only [Bool.not_eq_true] at h2
          simp [h1, hcb, h2] at hi

/-- C2: The smoke-test client never sends the token-exchange request before
a handle has been issued: a token-exchange request appears in the emitted
request trace only after the registration request, and only when
registration passed `raise_for_status` — i.e. returned a success (2xx)
status — and returned a JSON object whose `handle` field is truthy
(non-empty); when the registration response carries no such handle, the
client raises and no exchange request is ever issued. -/
theorem claim_C2_no_exchange_before_handle (env : Env) (w : World) :
    (∀ r : TokenRequest, Event.token r ∈ (mainRun env w).1 →
      (mainRun env w).1 = [Event.create (mkCreateRequest env), Event.token r] ∧
      statusError w.createStatus = false ∧
      200 ≤ w.createStatus ∧ w.createStatus < 300 ∧
      ∃ cf, w.createBody = some (Json.obj cf) ∧
        ((cf.lookup "handle").getD Json.null).truthy = true) ∧
    (∀ cf, w.createBody = some (Json.obj cf) →
      ((cf.lookup "handle").getD Json.null).truthy = false →
      (∃ exc, (mainRun env w).2 = Outcome.raised exc) ∧
      ∀ e ∈ (mainRun env w).1, e.isToken = false) := by
  constructor
  · intro r hr
    have ht := mainRun_trace env w
    cases hi : issuedHandle w with
    | none => rw [hi] at ht; rw [ht] at hr; simp at hr
    | some h =>
      rw [hi] at ht
      rw [ht] at hr
      simp only [List.mem_cons, List.mem_singleton, List.not_mem_nil, or_false,
        reduceCtorEq, false_or, Event.token.injEq] at hr
      obtain ⟨hs, cf, hcb, htr, _⟩ := issuedHandle_some w h hi
      have hb : 200 ≤ w.createStatus ∧ w.createStatus < 300 := by
        have hs2 := hs
        simp [statusError] at hs2
        exact hs2
      subst hr
      exact ⟨ht, hs, hb.1, hb.2, cf, hcb, htr⟩
  · intro cf hcb hfalse
    unfold mainRun
    by_cases h1 : statusError w.createStatus = true
    · simp [h1, Event.isToken]
    · simp only [Bool.not_eq_true] at h1
      simp [h1, hcb, hfalse, Event.isToken]

/-- C2 witness: a run whose registration response has an empty handle
raises and emits no token-exchange request. -/
theorem claim_C2_witness :
    (∃ exc, (mainRun ⟨"a", "b", "k", "r", "github", []⟩
        ⟨200, some (Json.obj (.cons "handle" (.str "") .nil)), 200, none⟩).2
          = Outcome.raised exc) ∧
    ∀ e ∈ (mainRun ⟨"a", "b", "k", "r", "github", []⟩
        ⟨200, some (Json.obj (.cons "handle" (.str "") .nil)), 200, none⟩).1,
      e.isToken = false :=
  (claim_C2_no_exchange_before_handle _ _).2 (.cons "handle" (.str "") .nil)
    rfl (by decide)

/-- C8: Every token-exchange request emitted by the client carries the
RFC 8693 token-exchange grant type and the api-key subject-token type,
with the subject token equal to the same API key used as the bearer
credential of the registration request. -/
theorem claim_C8_token_request_fields (env : Env) (w : World) (r : TokenRequest)
    (hr : Event.token r ∈ (mainRun env w).1) :
    r.grantType = "urn:ietf:params:oauth:grant-type:token-exchange" ∧
    r.subjectTokenType = "urn:ietf:params:oauth:token-type:api_key" ∧
    r.subjectToken = env.apiKey ∧
    (mkCreateRequest env).authorization = "Bearer " ++ r.subjectToken ∧
    Event.create (mkCreateRequest env) ∈ (mainRun env w).1 := by
  have ht := mainRun_trace env w
  cases hi : issuedHandle w with
  | none => rw [hi] at ht; rw [ht] at hr; simp at hr
  | some h =>
    rw [hi] at ht
    rw [ht] at hr ⊢
    simp only [List.mem_cons, List.mem_singleton, List.not_mem_nil, or_false,
      reduceCtorEq, false_or, Event.token.injEq] at hr
    subst hr
    exact ⟨rfl, rfl, rfl, rfl, by simp⟩

/-- C8 witness: in a run where registration returns the handle `"h1"`, the
emitted token request carries exactly the two RFC 8693 constants and the
client's API key. -/
theorem claim_C8_witness :
    (mkTokenRequest ⟨"a", "b", "k", "r", "github", []⟩ (Json.str "h1")).grantType
        = "urn:ietf:params:oauth:grant-type:token-exchange" ∧
    (mkTokenRequest ⟨"a", "b", "k", "r", "github", []⟩ (Json.str "h1")).subjectTokenType
        = "urn:ietf:params:oauth:token-type:api_key" ∧
    (mkTokenRequest ⟨"a", "b", "k", "r", "github", []⟩ (Json.str "h1")).subjectToken
        = Env.apiKey ⟨"a", "b", "k", "r", "github", []⟩ ∧
    (mkCreateRequest ⟨"a", "b", "k", "r", "github", []⟩).authorization
        = "Bearer " ++ (mkTokenRequest ⟨"a", "b", "k", "r", "github", []⟩ (Json.str "h1")).subjectToken ∧
    Event.create (mkCreateRequest ⟨"a", "b", "k", "r", "github", []⟩) ∈
      (mainRun ⟨"a", "b", "k", "r", "github", []⟩
        ⟨201, some (Json.obj (.cons "handle" (.str "h1") .nil)), 200, some (Json.obj .nil)⟩).1 :=
  claim_C8_token_request_fields _ _ _ (by decide)

/-- C9: Every HTTP request the client emits (both the registration call and
the token-exchange call) is issued through the `httpx.Client` configured
with `timeout=10.0`, hence carries a bounded 10-second timeout. -/
theorem claim_C9_bounded_timeout (env : Env) (w : World) (e : Event)
    (he : e ∈ (mainRun env w).1) :
    e.timeout = some 10 ∧ e.timeout ≠ none := by
  have ht := mainRun_trace env w
  cases hi : issuedHandle w with
  | none =>
    rw [hi] at ht; rw [ht] at he
    simp only [List.mem_singleton] at he
    subst he
    exact ⟨rfl, by simp [Event.timeout, mkCreateRequest, clientTimeout]⟩
  | some h =>
    rw [hi] at ht; rw [ht] at he
    simp only [List.mem_cons, List.mem_singleton, List.not_mem_nil, or_false] at he
    rcases he with he | he
    · subst he; exact ⟨rfl, by simp [Event.timeout, mkCreateRequest, clientTimeout]⟩
    · subst he; exact ⟨rfl, by simp [Event.timeout, mkTokenRequest, clientTimeout]⟩

/-- C9 witness: the registration request of a concrete run has the
10-second timeout. -/
theorem claim_C9_witness :
    (Event.create (mkCreateRequest ⟨"a", "b", "k", "r", "github", []⟩)).timeout = some 10 ∧
    (Event.create (mkCreateRequest ⟨"a", "b", "k", "r", "github", []⟩)).timeout ≠ none :=
  claim_C9_bounded_timeout ⟨"a", "b", "k", "r", "github", []⟩
    ⟨500, none, 200, none⟩ _ (by decide)

theorem alphaChar_mem (n : Nat) (h : n < 64) : alphaChar n ∈ b64urlAlphabet := by
  revert n
  decide

theorem b64urlAlphabet_ne_pad : ∀ c ∈ b64urlAlphabet, c ≠ '=' := by decide

theorem dropWhileEq_all (l : List Char) (h : ∀ c ∈ l, c ≠ '=') :
    l.dropWhile (fun c => c = '=') = l := by
  cases l with
  | nil => rfl
  | cons c tl =>
    rw [List.dropWhile_cons]
    simp [h c (List.mem_cons_self c tl)]

theorem dropWhileEq_replicate (k : Nat) (l : List Char) :
    (List.replicate k '=' ++ l).dropWhile (fun c => c = '=') =
      l.dropWhile (fun c => c = '=') := by
  induction k with
  | zero => simp
  | succ k ih => simp [List.replicate_succ, List.dropWhile_cons, ih]

theorem rstripEq_core_pad (core : List Char) (k : Nat) (h : ∀ c ∈ core, c ≠ '=') :
    rstripEq (core ++ List.replicate k '=') = core := by
  unfold rstripEq
  rw [List.reverse_append, List.reverse_replicate, dropWhileEq_replicate,
    dropWhileEq_all core.reverse (by simpa using h), List.reverse_reverse]

theorem b64EncodeRaw_decomp (bytes : List Nat) (hb : ∀ b ∈ bytes, b < 256) :
    ∃ core, b64EncodeRaw bytes = core ++ List.replicate (b64PadLen bytes.length) '=' ∧
      (∀ c ∈ core, c ∈ b64urlAlphabet) ∧ core.length = (4 * bytes.length + 2) / 3 := by
  induction bytes using b64EncodeRaw.induct with
  | case1 =>
    exact ⟨[], rfl, by simp, rfl⟩
  | case2 b1 =>
    refine ⟨[alphaChar (b1 / 4), alphaChar (b1 % 4 * 16)], rfl, ?_, by simp⟩
    have h1 := hb b1 (by simp)
    intro c hc
    simp only [List.mem_cons, List.not_mem_nil, or_false] at hc
    rcases hc with rfl | rfl
    · exact alphaChar_mem _ (by omega)
    · exact alphaChar_mem _ (by omega)
  | case3 b1 b2 =>
    refine ⟨[alphaChar (b1 / 4), alphaChar (b1 % 4 * 16 + b2 / 16),
      alphaChar (b2 % 16 * 4)], rfl, ?_, by simp⟩
    have h1 := hb b1 (by simp)
    have h2 := hb b2 (by simp)
    intro c hc
    simp only [List.mem_cons, List.not_mem_nil, or_false] at hc
    rcases hc with rfl | rfl | rfl
    · exact alphaChar_mem _ (by omega)
    · exact alphaChar_mem _ (by omega)
    · exact alphaChar_mem _ (by omega)
  | case4 b1 b2 b3 rest ih =>
    have h1 := hb b1 (by simp)
    have h2 := hb b2 (by simp)
    have h3 := hb b3 (by simp)
    obtain ⟨core, hcore, hmem, hlen⟩ := ih (fun b hbm => hb b (by simp [hbm]))
    refine ⟨alphaChar (b1 / 4) :: alphaChar (b1 % 4 * 16 + b2 / 16) ::
      alphaChar (b2 % 16 * 4 + b3 / 64) :: alphaChar (b3 % 64) :: core, ?_, ?_, ?_⟩
    · show alphaChar (b1 / 4) :: alphaChar (b1 % 4 * 16 + b2 / 16) ::
        alphaChar (b2 % 16 * 4 + b3 / 64) :: alphaChar (b3 % 64) :: b64EncodeRaw rest = _
      rw [hcore]
      have hmod : (b1 :: b2 :: b3 :: rest).length % 3 = rest.length % 3 := by
        simp only [List.length_cons]
        omega
      have : b64PadLen (b1 :: b2 :: b3 :: rest).length = b64PadLen rest.length := by
        unfold b64PadLen
        rw [hmod]
      rw [this]
      simp
    · intro c hc
      simp only [List.mem_cons] at hc
      rcases hc with rfl | rfl | rfl | rfl | hc
      · exact alphaChar_mem _ (by omega)
      · exact alphaChar_mem _ (by omega)
      · exact alphaChar_mem _ (by omega)
      · exact alphaChar_mem _ (by omega)
      · exact hmem c hc
    · simp only [List.length_cons, hlen]
      omega

/-- Closed form of the client's `_base64url_random_bytes`: the alphabet
core of the padded encoding. -/
theorem base64urlNoPad_core (bytes : List Nat) (hb : ∀ b ∈ bytes, b < 256) :
    (∀ c ∈ base64urlNoPad bytes, c ∈ b64urlAlphabet) ∧
      (base64urlNoPad bytes).length = (4 * bytes.length + 2) / 3 := by
  obtain ⟨core, hcore, hmem, hlen⟩ := b64EncodeRaw_decomp bytes hb
  have : base64urlNoPad bytes = core := by
    unfold base64urlNoPad
    rw [hcore, rstripEq_core_pad core _ (fun c hc => b64urlAlphabet_ne_pad c (hmem c hc))]
  rw [this]
  exact ⟨hmem, hlen⟩

/-- C5: For `n ≥ 0` input bytes, `_base64url_random_bytes` yields a string
over the base64url alphabet with no `=` padding, of length
`ceil(4n/3) = (4n+2)/3`; for the 700 random bytes the client draws this is
934 characters, at least the Registry's ~500-character minimum, and that
string is exactly the `encrypted_credentials` field of the registration
request. -/
theorem claim_C5_blob_length (bytes : List Nat) (hb : ∀ b ∈ bytes, b < 256) :
    (∀ c ∈ base64urlNoPad bytes, c ∈ b64urlAlphabet ∧ c ≠ '=') ∧
    (base64urlNoPad bytes).length = (4 * bytes.length + 2) / 3 ∧
    (bytes.length = 700 →
      (base64urlNoPad bytes).length = 934 ∧ 500 ≤ (base64urlNoPad bytes).length) ∧
    (∀ env : Env, env.randomBytes = bytes →
      (mkCreateRequest env).encryptedCredentials = base64urlNoPad bytes) := by
  obtain ⟨hmem, hlen⟩ := base64urlNoPad_core bytes hb
  refine ⟨fun c hc => ⟨hmem c hc, b64urlAlphabet_ne_pad c (hmem c hc)⟩, hlen, ?_, ?_⟩
  · intro h700
    rw [hlen, h700]
    norm_num
  · intro env henv
    show base64urlNoPad env.randomBytes = base64urlNoPad bytes
    rw [henv]

/-- C5 witness: a concrete 700-byte input produces a 934-character blob. -/
theorem claim_C5_witness :
    (base64urlNoPad (List.replicate 700 0)).length = 934 ∧
    500 ≤ (base64urlNoPad (List.replicate 700 0)).length :=
  (claim_C5_blob_length (List.replicate 700 0)
      (fun b hbm => by rw [List.eq_of_mem_replicate hbm]; norm_num)).2.2.1
    (by rw [List.length_replicate])

theorem gh_req_inv (resp : DispatchReply) :
    resultInv (gh_req resp).success (gh_req resp).error := by
  unfold gh_req resultInv
  by_cases hs : resp.success = true
  · simp [hs]
  · simp only [Bool.not_eq_true] at hs
    refine ⟨?_, ?_⟩ <;> simp [hs]

theorem ghPassthrough_cases (resp : DispatchReply) (r : GhResult)
    (h : ghPassthrough resp = some r) :
    r = gh_req resp ∨ (r.success = true ∧ r.error = none) := by
  unfold ghPassthrough at h
  injection h with h
  exact Or.inl h.symm

theorem gh_whoami_cases (resp : DispatchReply) (r : GhResult)
    (h : gh_whoami resp = some r) :
    r = gh_req resp ∨ (r.success = true ∧ r.error = none) := by
  unfold gh_whoami at h
  by_cases hs : resp.success = true
  · simp only [gh_req, hs, if_true] at h ⊢
    split at h
    · injection h with h
      exact Or.inr (by rw [← h]; exact ⟨rfl, rfl⟩)
    · exact absurd h (by simp)
  · simp only [Bool.not_eq_true] at hs
    simp only [gh_req, hs, if_false, Bool.false_eq_true] at h ⊢
    injection h with h
    exact Or.inl h.symm

theorem ghListShape_cases (item : Json → Option (List Json)) (resp : DispatchReply)
    (r : GhResult) (h : ghListShape item resp = some r) :
    r = gh_req resp ∨ (r.success = true ∧ r.error = none) := by
  unfold ghListShape at h
  by_cases hs : resp.success = true
  · simp only [gh_req, hs, if_true] at h ⊢
    split at h
    · obtain ⟨items, _, hr⟩ := Option.map_eq_some'.mp h
      exact Or.inr (by rw [← hr]; exact ⟨rfl, rfl⟩)
    · injection h with h
      exact Or.inr (by rw [← h]; exact ⟨rfl, rfl⟩)
  · simp only [Bool.not_eq_true] at hs
    simp only [gh_req, hs, if_false, Bool.false_eq_true] at h ⊢
    injection h with h
    exact Or.inl h.symm

theorem ghDictShape_cases (key : String) (item : Json → Option (List Json))
    (resp : DispatchReply) (r : GhResult) (h : ghDictShape key item resp = some r) :
    r = gh_req resp ∨ (r.success = true ∧ r.error = none) := by
  unfold ghDictShape at h
  by_cases hs : resp.success = true
  · simp only [gh_req, hs, if_true] at h ⊢
    split at h
    · split at h
      · exact absurd h (by simp)
      · obtain ⟨items, _, hr⟩ := Option.map_eq_some'.mp h
        exact Or.inr (by rw [← hr]; exact ⟨rfl, rfl⟩)
    · injection h with h
      exact Or.inr (by rw [← h]; exact ⟨rfl, rfl⟩)
  · simp only [Bool.not_eq_true] at hs
    simp only [gh_req, hs, if_false, Bool.false_eq_true] at h ⊢
    injection h with h
    exact Or.inl h.symm

theorem ghResult_inv_of_cases (resp : DispatchReply) (r : GhResult)
    (h : r = gh_req resp ∨ (r.success = true ∧ r.error = none)) :
    resultInv r.success r.error := by
  rcases h with rfl | ⟨h1, h2⟩
  · exact gh_req_inv resp
  · exact ⟨fun _ => h2, fun hf => absurd (h1 ▸ hf) (by simp)⟩

theorem dbResult_inv_of (r : DatabaseResult)
    (h : (r.success = true ∧ r.error = none) ∨
      (r.success = false ∧ ∃ s, r.error = some s)) :
    resultInv r.success r.error := by
  rcases h with ⟨h1, h2⟩ | ⟨h1, h2⟩
  · exact ⟨fun _ => h2, fun hf => absurd (h1 ▸ hf) (by simp)⟩
  · exact ⟨fun ht => absurd (h1 ▸ ht) (by simp), fun _ => h2⟩

theorem dbShape_cases (f : List JsonObj → DatabaseResult) (fallback : String)
    (resp : DispatchReply) (r : DatabaseResult)
    (h : (if resp.success then
        (asObjList (wrapBody resp.body)).map f
      else some { success := false, error := some (dispatchMsg resp fallback) }) = some r)
    (hf : ∀ rows, (f rows).success = true ∧ (f rows).error = none) :
    (r.success = true ∧ r.error = none) ∨ (r.success = false ∧ ∃ s, r.error = some s) := by
  by_cases hs : resp.success = true
  · rw [hs, if_pos rfl] at h
    obtain ⟨rows, _, hr⟩ := Option.map_eq_some'.mp h
    exact Or.inl (hr ▸ hf rows)
  · simp only [Bool.not_eq_true] at hs
    rw [hs] at h
    simp only [Bool.false_eq_true, if_false] at h
    injection h with h
    exact Or.inr (by rw [← h]; exact ⟨rfl, _, rfl⟩)

theorem db_select_inv (resp : DispatchReply) (r : DatabaseResult)
    (h : db_select resp = some r) : resultInv r.success r.error :=
  dbResult_inv_of r (dbShape_cases _ "Query failed" resp r h (fun _ => ⟨rfl, rfl⟩))

theorem db_insert_inv (nrows : Nat) (resp : DispatchReply) (r : DatabaseResult)
    (h : db_insert nrows resp = some r) : resultInv r.success r.error :=
  dbResult_inv_of r (dbShape_cases _ "Insert failed" resp r h (fun _ => ⟨rfl, rfl⟩))

theorem db_update_inv (resp : DispatchReply) (r : DatabaseResult)
    (h : db_update resp = some r) : resultInv r.success r.error :=
  dbResult_inv_of r (dbShape_cases _ "Update failed" resp r h (fun _ => ⟨rfl, rfl⟩))

theorem db_delete_inv (resp : DispatchReply) (r : DatabaseResult)
    (h : db_delete resp = some r) : resultInv r.success r.error :=
  dbResult_inv_of r (dbShape_cases _ "Delete failed" resp r h (fun _ => ⟨rfl, rfl⟩))

theorem db_upsert_inv (nrows : Nat) (resp : DispatchReply) (r : DatabaseResult)
    (h : db_upsert nrows resp = some r) : resultInv r.success r.error :=
  dbResult_inv_of r (dbShape_cases _ "Upsert failed" resp r h (fun _ => ⟨rfl, rfl⟩))

theorem db_rpc_inv (resp : DispatchReply) (r : DatabaseResult)
    (h : db_rpc resp = some r) : resultInv r.success r.error :=
  dbResult_inv_of r (dbShape_cases _ "RPC call failed" resp r h (fun _ => ⟨rfl, rfl⟩))

theorem db_get_by_id_inv (resp : DispatchReply) (r : DatabaseSingleResult)
    (h : db_get_by_id resp = some r) : resultInv r.success r.error := by
  unfold db_get_by_id at h
  by_cases hs : resp.success = true
  · rw [hs, if_pos rfl] at h
    split at h
    · split at h
      · injection h with h
        exact ⟨fun _ => by rw [← h], fun hf => absurd (h ▸ hf) (by simp)⟩
      · exact absurd h (by simp)
    · injection h with h
      exact ⟨fun _ => by rw [← h], fun hf => absurd (h ▸ hf) (by simp)⟩
    · injection h with h
      exact ⟨fun ht => absurd (h ▸ ht) (by simp), fun _ => by rw [← h]; exact ⟨_, rfl⟩⟩
  · simp only [Bool.not_eq_true] at hs
    rw [hs] at h
    simp only [Bool.false_eq_true, if_false] at h
    injection h with h
    exact ⟨fun ht => absurd (h ▸ ht) (by simp), fun _ => by rw [← h]; exact ⟨_, rfl⟩⟩

theorem weather_request_inv (resp : DispatchReply) (r : WeatherResult)
    (h : weather_request resp = some r) : resultInv r.success r.error := by
  unfold weather_request at h
  by_cases hs : resp.success = true
  · rw [hs, if_pos rfl] at h
    obtain ⟨d, _, hr⟩ := Option.map_eq_some'.mp h
    exact ⟨fun _ => by rw [← hr], fun hf => absurd (hr ▸ hf) (by simp)⟩
  · simp only [Bool.not_eq_true] at hs
    rw [hs] at h
    simp only [Bool.false_eq_true, if_false] at h
    injection h with h
    exact ⟨fun ht => absurd (h ▸ ht) (by simp), fun _ => by rw [← h]; exact ⟨_, rfl⟩⟩

theorem geocoding_inv (resp : DispatchReply) (r : GeocodingResult)
    (h : geocoding resp = some r) : resultInv r.success r.error := by
  unfold geocoding at h
  by_cases hs : resp.success = true
  · rw [hs, if_pos rfl] at h
    obtain ⟨d, _, hr⟩ := Option.map_eq_some'.mp h
    exact ⟨fun _ => by rw [← hr], fun hf => absurd (hr ▸ hf) (by simp)⟩
  · simp only [Bool.not_eq_true] at hs
    rw [hs] at h
    simp only [Bool.false_eq_true, if_false] at h
    injection h with h
    exact ⟨fun ht => absurd (h ▸ ht) (by simp), fun _ => by rw [← h]; exact ⟨_, rfl⟩⟩

/-- C6 counterexample: the claim fails as stated for the weather helper.
On a successful dispatch response whose body is a JSON list, Python's
`_weather_request` does not return a structured result: constructing
`WeatherResult(success=True, data=<list>)` violates the `data:
dict[str, Any] | None` annotation and pydantic raises `ValidationError`
(modelled by `none`). -/
theorem claim_C6_counterexample :
    weather_request ⟨true, Json.arr JsonList.nil, none⟩ = none ∧
    ∀ r : WeatherResult, weather_request ⟨true, Json.arr JsonList.nil, none⟩ ≠ some r := by
  refine ⟨rfl, ?_⟩
  intro r h
  rw [show weather_request ⟨true, Json.arr JsonList.nil, none⟩ = none from rfl] at h
  exact Option.noConfusion h

/-- C6 (amended): The GitHub helper `_req` always returns a structured
result: on success, `success=True` with the response body as `data`; on
failure, `success=False` with the response's error message, falling back
to `"Request failed"`.  The weather helper `_weather_request` behaves the
same way on failure and on success whenever the body is a JSON object or
null; on success with any other body it raises pydantic
`ValidationError` instead of returning. -/
theorem claim_C6_helper_results (resp : DispatchReply) :
    (resp.success = true →
      gh_req resp = { success := true, data := resp.body, error := none }) ∧
    (resp.success = false →
      gh_req resp = { success := false, data := Json.null,
                      error := some (dispatchMsg resp "Request failed") } ∧
      weather_request resp =
        some { success := false, data := none,
               error := some (dispatchMsg resp "Request failed") }) ∧
    (resp.success = true → ∀ d, asOptionalDict resp.body = some d →
      weather_request resp = some { success := true, data := d, error := none }) ∧
    (resp.success = true → asOptionalDict resp.body = none →
      weather_request resp = none) := by
  refine ⟨?_, ?_, ?_, ?_⟩
  · intro hs
    unfold gh_req
    rw [hs, if_pos rfl]
  · intro hs
    constructor
    · unfold gh_req
      rw [hs]
      simp
    · unfold weather_request
      rw [hs]
      simp
  · intro hs d hd
    unfold weather_request
    rw [hs, if_pos rfl, hd]
    rfl
  · intro hs hd
    unfold weather_request
    rw [hs, if_pos rfl, hd]
    rfl

/-- C6 witness: the amended statement evaluated at concrete responses. -/
theorem claim_C6_witness :
    gh_req ⟨true, Json.num 3, none⟩ = { success := true, data := Json.num 3, error := none } ∧
    weather_request ⟨true, Json.obj JsonObj.nil, none⟩ =
      some { success := true, data := some JsonObj.nil, error := none } ∧
    weather_request ⟨false, Json.null, some ⟨"boom"⟩⟩ =
      some { success := false, data := none, error := some "boom" } :=
  ⟨(claim_C6_helper_results ⟨true, Json.num 3, none⟩).1 rfl,
   (claim_C6_helper_results ⟨true, Json.obj JsonObj.nil, none⟩).2.2.1 rfl
     (some JsonObj.nil) rfl,
   ((claim_C6_helper_results ⟨false, Json.null, some ⟨"boom"⟩⟩).2.1 rfl).2⟩

/-- C7: Every result value actually returned by any GitHub, Supabase or
weather tool wrapper satisfies the invariant: `success=True` implies
`error=None`, and `success=False` implies `error` is a string.  (Calls in
which pydantic validation or an attribute access raises return no result
value and are outside the quantification.) -/
theorem claim_C7_result_invariant :
    (∀ resp r, gh_whoami resp = some r → resultInv r.success r.error) ∧
    (∀ resp r, gh_list_repos resp = some r → resultInv r.success r.error) ∧
    (∀ resp r, gh_get_repo resp = some r → resultInv r.success r.error) ∧
    (∀ resp r, gh_get_file resp = some r → resultInv r.success r.error) ∧
    (∀ resp r, gh_put_file resp = some r → resultInv r.success r.error) ∧
    (∀ resp r, gh_delete_file resp = some r → resultInv r.success r.error) ∧
    (∀ resp r, gh_list_issues resp = some r → resultInv r.success r.error) ∧
    (∀ resp r, gh_get_issue resp = some r → resultInv r.success r.error) ∧
    (∀ resp r, gh_list_prs resp = some r → resultInv r.success r.error) ∧
    (∀ resp r, gh_get_pr resp = some r → resultInv r.success r.error) ∧
    (∀ resp r, gh_list_workflows resp = some r → resultInv r.success r.error) ∧
    (∀ resp r, gh_list_workflow_runs resp = some r → resultInv r.success r.error) ∧
    (∀ resp r, gh_dispatch_workflow resp = some r → resultInv r.success r.error) ∧
    (∀ resp r, gh_cancel_workflow_run resp = some r → resultInv r.success r.error) ∧
    (∀ resp r, gh_rerun_workflow resp = some r → resultInv r.success r.error) ∧
    (∀ resp r, gh_list_actions_variables resp = some r → resultInv r.success r.error) ∧
    (∀ resp r, gh_list_secrets resp = some r → resultInv r.success r.error) ∧
    (∀ resp r, gh_list_deployments resp = some r → resultInv r.success r.error) ∧
    (∀ resp r, gh_list_environments resp = some r → resultInv r.success r.error) ∧
    (∀ resp r, gh_get_commit_status resp = some r → resultInv r.success r.error) ∧
    (∀ resp r, gh_list_commit_statuses resp = some r → resultInv r.success r.error) ∧
    (∀ resp r, gh_list_discussions resp = some r → resultInv r.success r.error) ∧
    (∀ resp r, db_select resp = some r → resultInv r.success r.error) ∧
    (∀ n resp r, db_insert n resp = some r → resultInv r.success r.error) ∧
    (∀ resp r, db_update resp = some r → resultInv r.success r.error) ∧
    (∀ resp r, db_delete resp = some r → resultInv r.success r.error) ∧
    (∀ n resp r, db_upsert n resp = some r → resultInv r.success r.error) ∧
    (∀ resp r, db_get_by_id resp = some r → resultInv r.success r.error) ∧
    (∀ resp r, db_rpc resp = some r → resultInv r.success r.error) ∧
    (∀ resp r, weather_forecast resp = some r → resultInv r.success r.error) ∧
    (∀ resp r, weather_archive resp = some r → resultInv r.success r.error) ∧
    (∀ resp r, weather_elevation resp = some r → resultInv r.success r.error) ∧
    (∀ resp r, air_quality resp = some r → resultInv r.success r.error) ∧
    (∀ resp r, marine_weather resp = some r → resultInv r.success r.error) ∧
    (∀ resp r, flood_forecast resp = some r → resultInv r.success r.error) ∧
    (∀ resp r, seasonal_forecast resp = some r → resultInv r.success r.error) ∧
    (∀ resp r, climate_projection resp = some r → resultInv r.success r.error) ∧
    (∀ resp r, ensemble_forecast resp = some r → resultInv r.success r.error) ∧
    (∀ resp r, weather_dwd_icon resp = some r → resultInv r.success r.error) ∧
    (∀ resp r, weather_gfs resp = some r → resultInv r.success r.error) ∧
    (∀ resp r, weather_meteofrance resp = some r → resultInv r.success r.error) ∧
    (∀ resp r, weather_ecmwf resp = some r → resultInv r.success r.error) ∧
    (∀ resp r, weather_jma resp = some r → resultInv r.success r.error) ∧
    (∀ resp r, weather_metno resp = some r → resultInv r.success r.error) ∧
    (∀ resp r, weather_gem resp = some r → resultInv r.success r.error) ∧
    (∀ resp r, geocoding resp = some r → resultInv r.success r.error) :=
  ⟨fun resp r h => ghResult_inv_of_cases resp r (gh_whoami_cases resp r h),
   fun resp r h => ghResult_inv_of_cases resp r (ghListShape_cases _ resp r h),
   fun resp r h => ghResult_inv_of_cases resp r (ghPassthrough_cases resp r h),
   fun resp r h => ghResult_inv_of_cases resp r (ghPassthrough_cases resp r h),
   fun resp r h => ghResult_inv_of_cases resp r (ghPassthrough_cases resp r h),
   fun resp r h => ghResult_inv_of_cases resp r (ghPassthrough_cases resp r h),
   fun resp r h => ghResult_inv_of_cases resp r (ghListShape_cases _ resp r h),
   fun resp r h => ghResult_inv_of_cases resp r (ghPassthrough_cases resp r h),
   fun resp r h => ghResult_inv_of_cases resp r (ghListShape_cases _ resp r h),
   fun resp r h => ghResult_inv_of_cases resp r (ghPassthrough_cases resp r h),
   fun resp r h => ghResult_inv_of_cases resp r (ghDictShape_cases _ _ resp r h),
   fun resp r h => ghResult_inv_of_cases resp r (ghDictShape_cases _ _ resp r h),
   fun resp r h => ghResult_inv_of_cases resp r (ghPassthrough_cases resp r h),
   fun resp r h => ghResult_inv_of_cases resp r (ghPassthrough_cases resp r h),
   fun resp r h => ghResult_inv_of_cases resp r (ghPassthrough_cases resp r h),
   fun resp r h => ghResult_inv_of_cases resp r (ghPassthrough_cases resp r h),
   fun resp r h => ghResult_inv_of_cases resp r (ghDictShape_cases _ _ resp r h),
   fun resp r h => ghResult_inv_of_cases resp r (ghListShape_cases _ resp r h),
   fun resp r h => ghResult_inv_of_cases resp r (ghDictShape_cases _ _ resp r h),
   fun resp r h => ghResult_inv_of_cases resp r (ghPassthrough_cases resp r h),
   fun resp r h => ghResult_inv_of_cases resp r (ghListShape_cases _ resp r h),
   fun resp r h => ghResult_inv_of_cases resp r (ghPassthrough_cases resp r h),
   fun resp r h => db_select_inv resp r h,
   fun n resp r h => db_insert_inv n resp r h,
   fun resp r h => db_update_inv resp r h,
   fun resp r h => db_delete_inv resp r h,
   fun n resp r h => db_upsert_inv n resp r h,
   fun resp r h => db_get_by_id_inv resp r h,
   fun resp r h => db_rpc_inv resp r h,
   fun resp r h => weather_request_inv resp r h,
   fun resp r h => weather_request_inv resp r h,
   fun resp r h => weather_request_inv resp r h,
   fun resp r h => weather_request_inv resp r h,
   fun resp r h => weather_request_inv resp r h,
   fun resp r h => weather_request_inv resp r h,
   fun resp r h => weather_request_inv resp r h,
   fun resp r h => weather_request_inv resp r h,
   fun resp r h => weather_request_inv resp r h,
   fun resp r h => weather_request_inv resp r h,
   fun resp r h => weather_request_inv resp r h,
   fun resp r h => weather_request_inv resp r h,
   fun resp r h => weather_request_inv resp r h,
   fun resp r h => weather_request_inv resp r h,
   fun resp r h => weather_request_inv resp r h,
   fun resp r h => weather_request_inv resp r h,
   fun resp r h => geocoding_inv resp r h⟩

/-- C7 witness: the invariant at a concrete failed GitHub call and a
concrete successful Supabase select. -/
theorem claim_C7_witness :
    resultInv (GhResult.success { success := false, data := Json.null, error := some "x" })
      (GhResult.error { success := false, data := Json.null, error := some "x" }) ∧
    resultInv
      (DatabaseResult.success { success := true, data := [], count := some 0, error := none })
      (DatabaseResult.error { success := true, data := [], count := some 0, error := none }) :=
  ⟨claim_C7_result_invariant.1 ⟨false, Json.null, some ⟨"x"⟩⟩
      { success := false, data := Json.null, error := some "x" } (by decide),
   claim_C7_result_invariant.2.2.2.2.2.2.2.2.2.2.2.2.2.2.2.2.2.2.2.2.2.2.1
      ⟨true, Json.arr JsonList.nil, none⟩
      { success := true, data := [], count := some 0, error := none } (by decide)⟩

/-- C10 counterexample: the claim fails as stated when the first element
of a non-empty list body is not a JSON object: `db_get_by_id` then raises
pydantic `ValidationError` (the `data` field is typed
`dict[str, Any] | None`) instead of returning `success=True` with that
element as data. -/
theorem claim_C10_counterexample :
    db_get_by_id ⟨true, Json.arr (JsonList.cons (Json.str "x") JsonList.nil), none⟩ = none ∧
    ∀ r : DatabaseSingleResult,
      db_get_by_id ⟨true, Json.arr (JsonList.cons (Json.str "x") JsonList.nil), none⟩
        ≠ some r := by
  refine ⟨rfl, ?_⟩
  intro r h
  rw [show db_get_by_id ⟨true, Json.arr (JsonList.cons (Json.str "x") JsonList.nil), none⟩
      = none from rfl] at h
  exact Option.noConfusion h

/-- C10 (amended): On a successful dispatch, `db_get_by_id` returns
`success=True` with the first element as data when the body is a
non-empty list whose first element is an object (raising
`ValidationError` when that element is not an object), returns the body
itself when it is a dict, and converts every other body — the empty list
or any non-list, non-dict value — into the caller-visible failure
`success=False, error="Not found"`. -/
theorem claim_C10_get_by_id (resp : DispatchReply) (hs : resp.success = true) :
    (∀ o, resp.body = Json.obj o →
      db_get_by_id resp = some { success := true, data := some o, error := none }) ∧
    (∀ x xs, resp.body = Json.arr (JsonList.cons x xs) →
      (∀ o, x = Json.obj o →
        db_get_by_id resp = some { success := true, data := some o, error := none }) ∧
      ((∀ o, x ≠ Json.obj o) → db_get_by_id resp = none)) ∧
    ((resp.body = Json.arr JsonList.nil ∨
        ((∀ xs, resp.body ≠ Json.arr xs) ∧ (∀ o, resp.body ≠ Json.obj o))) →
      db_get_by_id resp = some { success := false, data := none, error := some "Not found" }) := by
  refine ⟨?_, ?_, ?_⟩
  · intro o hb
    unfold db_get_by_id
    rw [hs, if_pos rfl, hb]
  · intro x xs hb
    constructor
    · intro o ho
      unfold db_get_by_id
      rw [hs, if_pos rfl, hb, ho]
    · intro ho
      unfold db_get_by_id
      rw [hs, if_pos rfl, hb]
      rcases x with _ | bb | nn | ss | ys | o
      · rfl
      · rfl
      · rfl
      · rfl
      · rfl
      · exact absurd rfl (ho o)
  · intro hb
    unfold db_get_by_id
    rw [hs, if_pos rfl]
    rcases hb with hb | ⟨hb1, hb2⟩
    · rw [hb]
    · rcases hx : resp.body with _ | bb | nn | ss | ys | o
      · rfl
      · rfl
      · rfl
      · rfl
      · rcases ys with _ | ⟨y, ytl⟩
        · rfl
        · exact absurd hx (hb1 _)
      · exact absurd hx (hb2 o)

/-- C10 witness: the amended statement at concrete bodies. -/
theorem claim_C10_witness :
    db_get_by_id ⟨true, Json.arr (JsonList.cons (Json.obj JsonObj.nil) JsonList.nil), none⟩
      = some { success := true, data := some JsonObj.nil, error := none } ∧
    db_get_by_id ⟨true, Json.arr JsonList.nil, none⟩
      = some { success := false, data := none, error := some "Not found" } :=
  ⟨((claim_C10_get_by_id ⟨true, Json.arr (JsonList.cons (Json.obj JsonObj.nil) JsonList.nil),
        none⟩ rfl).2.1 _ _ rfl).1 _ rfl,
   (claim_C10_get_by_id ⟨true, Json.arr JsonList.nil, none⟩ rfl).2.2 (Or.inl rfl)⟩

theorem charListLt_asymm : ∀ xs ys, charListLt xs ys = true → charListLt ys xs = false := by
  intro xs
  induction xs with
  | nil =>
    intro ys h
    cases ys with
    | nil => simp [charListLt] at h
    | cons b bs => simp [charListLt]
  | cons a as ih =>
    intro ys h
    cases ys with
    | nil => simp [charListLt] at h
    | cons b bs =>
      simp only [charListLt, Bool.or_eq_true, Bool.and_eq_true, decide_eq_true_eq] at h ⊢
      rcases h with hlt | ⟨heq, hrec⟩
      · simp only [Bool.or_eq_false_iff, Bool.and_eq_false_iff]
        constructor
        · simp only [decide_eq_false_iff_not]
          omega
        · left
          simp only [decide_eq_false_iff_not]
          intro hba
          rw [hba] at hlt
          omega
      · subst heq
        simp only [Bool.or_eq_false_iff, Bool.and_eq_false_iff]
        constructor
        · simp
        · right
          exact ih bs hrec

theorem strLt_asymm (a b : String) (h : strLt a b = true) : strLt b a = false :=
  charListLt_asymm a.data b.data h

theorem sortIns_cons (k : String) (v : Json) (k2 : String) (v2 : Json) (tl : JsonObj) :
    sortIns k v (JsonObj.cons k2 v2 tl) =
      if strLt k k2 then JsonObj.cons k v (JsonObj.cons k2 v2 tl)
      else JsonObj.cons k2 v2 (sortIns k v tl) := rfl

theorem keysSorted_sortIns (k : String) (v : Json) :
    ∀ fs, fs.keysSorted = true → (sortIns k v fs).keysSorted = true := by
  intro fs
  induction fs using JsonObj.indOn with
  | hnil => intro; rfl
  | hcons k2 v2 tl ih =>
    intro hs
    rw [sortIns_cons]
    by_cases hlt : strLt k k2 = true
    · rw [if_pos hlt]
      have h2 := strLt_asymm k k2 hlt
      simp [JsonObj.keysSorted, h2, hs]
    · rw [if_neg hlt]
      have hlt' : strLt k k2 = false := Bool.not_eq_true _ ▸ eq_false_of_ne_true hlt
      cases tl with
      | nil =>
        simp [sortIns, JsonObj.keysSorted, hlt']
      | cons k3 v3 tl3 =>
        have hh : strLt k3 k2 = false ∧ (JsonObj.cons k3 v3 tl3).keysSorted = true := by
          have := hs
          simp only [JsonObj.keysSorted, Bool.and_eq_true, Bool.not_eq_true'] at this
          exact this
        have ihs := ih hh.2
        rw [sortIns_cons] at ihs ⊢
        by_cases hlt3 : strLt k k3 = true
        · rw [if_pos hlt3] at ihs ⊢
          simp only [JsonObj.keysSorted, Bool.and_eq_true, Bool.not_eq_true'] at ihs ⊢
          exact ⟨hlt', ihs⟩
        · rw [if_neg hlt3] at ihs ⊢
          simp only [JsonObj.keysSorted, Bool.and_eq_true, Bool.not_eq_true'] at ihs ⊢
          exact ⟨hh.1, ihs⟩

theorem sortFields_sorted : ∀ fs : JsonObj, (sortFields fs).keysSorted = true := by
  intro fs
  induction fs using JsonObj.indOn with
  | hnil => rfl
  | hcons k v tl ih =>
    unfold sortFields
    exact keysSorted_sortIns k v _ ih

theorem escapeChar_plain (c : Char) (h : plainChar c = true) : escapeChar c = [c] := by
  unfold plainChar at h
  simp only [Bool.and_eq_true, decide_eq_true_eq] at h
  obtain ⟨⟨⟨h32, h126⟩, hq⟩, hb⟩ := h
  unfold escapeChar
  rw [if_neg hq, if_neg hb,
    if_neg (fun hc => by rw [hc] at h32; exact absurd h32 (by decide)),
    if_neg (fun hc => by rw [hc] at h32; exact absurd h32 (by decide)),
    if_neg (fun hc => by rw [hc] at h32; exact absurd h32 (by decide)),
    if_neg (fun hc => by rw [hc] at h32; exact absurd h32 (by decide)),
    if_neg (fun hc => by rw [hc] at h32; exact absurd h32 (by decide)),
    if_pos ⟨h32, h126⟩]

theorem flatMap_singleton (l : List Char) (f : Char → List Char)
    (h : ∀ c ∈ l, f c = [c]) : l.flatMap f = l := by
  induction l with
  | nil => rfl
  | cons c tl ih =>
    rw [List.flatMap_cons, h c (List.mem_cons_self c tl), ih (fun d hd => h d (List.mem_cons_of_mem c hd))]
    rfl

theorem quoteString_plain (s : String) (h : ∀ c ∈ s.data, plainChar c = true) :
    quoteString s = '"' :: s.data ++ ['"'] := by
  unfold quoteString
  rw [flatMap_singleton s.data escapeChar (fun c hc => escapeChar_plain c (h c hc))]

theorem token_req_of_mem (env : Env) (w : World) (r : TokenRequest)
    (hr : Event.token r ∈ (mainRun env w).1) :
    ∃ h, issuedHandle w = some h ∧ r = mkTokenRequest env h := by
  have ht := mainRun_trace env w
  cases hi : issuedHandle w with
  | none => rw [hi] at ht; rw [ht] at hr; simp at hr
  | some h =>
    rw [hi] at ht; rw [ht] at hr
    simp only [List.mem_cons, List.mem_singleton, List.not_mem_nil, or_false,
      reduceCtorEq, false_or, Event.token.injEq] at hr
    exact ⟨h, rfl, hr⟩

theorem dumps_ext_plain (name hstr : String)
    (hn : ∀ c ∈ name.data, plainChar c = true)
    (hh : ∀ c ∈ hstr.data, plainChar c = true) :
    pyDumps true (extJson name (Json.str hstr)) =
      "\x7b\"connections\":\x7b\"".data ++ name.data ++ "\":\"".data
        ++ hstr.data ++ "\"\x7d\x7d".data := by
  have h1 := quoteString_plain name hn
  have h2 := quoteString_plain hstr hh
  have hc : quoteString "connections" = '"' :: "connections".data ++ ['"'] :=
    quoteString_plain _ (by decide)
  have e0 : "connections".data
      = ['c', 'o', 'n', 'n', 'e', 'c', 't', 'i', 'o', 'n', 's'] := rfl
  have e1 : "\x7b\"connections\":\x7b\"".data
      = ['\x7b', '"', 'c', 'o', 'n', 'n', 'e', 'c', 't', 'i', 'o', 'n', 's', '"',
         ':', '\x7b', '"'] := rfl
  have e2 : "\":\"".data = ['"', ':', '"'] := rfl
  have e3 : "\"\x7d\x7d".data = ['"', '\x7d', '\x7d'] := rfl
  rw [show pyDumps true (extJson name (Json.str hstr))
      = '\x7b' :: (quoteString "connections" ++
          ':' :: ('\x7b' :: (quoteString name ++ ':' :: quoteString hstr) ++ ['\x7d']))
        ++ ['\x7d'] from rfl]
  rw [h1, h2, hc, e0, e1, e2, e3]
  simp

/-- C3: The `ext` form parameter of every emitted token-exchange request is
the canonical `json.dumps({"connections": {name: handle}},
separators=(",", ":"), sort_keys=True)` serialization: keys sorted at
every level (the serializer's `sortFields` always produces
code-point-sorted keys), compact separators with no spaces, and
deterministic — any two runs with the same connection name and the same
issued handle produce byte-identical `ext` strings. -/
theorem claim_C3_ext_canonical (env1 : Env) (w1 : World) (r1 : TokenRequest)
    (h1 : Event.token r1 ∈ (mainRun env1 w1).1) :
    (∃ h, issuedHandle w1 = some h ∧
      r1.ext = pyDumps true (extJson env1.connectionName h)) ∧
    (∀ env2 w2 r2, Event.token r2 ∈ (mainRun env2 w2).1 →
      env1.connectionName = env2.connectionName →
      issuedHandle w1 = issuedHandle w2 → r1.ext = r2.ext) ∧
    (∀ fs : JsonObj, (sortFields fs).keysSorted = true) ∧
    (∀ name hstr : String, env1.connectionName = name →
      issuedHandle w1 = some (Json.str hstr) →
      (∀ c ∈ name.data, plainChar c = true) →
      (∀ c ∈ hstr.data, plainChar c = true) →
      r1.ext = "\x7b\"connections\":\x7b\"".data ++ name.data ++ "\":\"".data
        ++ hstr.data ++ "\"\x7d\x7d".data) := by
  obtain ⟨h, hi, hr⟩ := token_req_of_mem env1 w1 r1 h1
  subst hr
  refine ⟨⟨h, hi, rfl⟩, ?_, sortFields_sorted, ?_⟩
  · intro env2 w2 r2 h2 hname hhandle
    obtain ⟨h', hi', hr'⟩ := token_req_of_mem env2 w2 r2 h2
    subst hr'
    have heq : h = h' := by
      rw [hhandle, hi'] at hi
      injection hi with hval
      exact hval.symm
    show pyDumps true (extJson env1.connectionName h)
      = pyDumps true (extJson env2.connectionName h')
    rw [hname, heq]
  · intro name hstr hname hih hn hh
    have heq : h = Json.str hstr := by
      rw [hi] at hih
      injection hih
    subst heq
    show pyDumps true (extJson env1.connectionName (Json.str hstr)) = _
    rw [hname]
    exact dumps_ext_plain name hstr hn hh

/-- C3 witness: the `ext` of a concrete run with name `"github"` and
handle `"h1"` is exactly the expected compact, sorted serialization. -/
theorem claim_C3_witness :
    (mkTokenRequest ⟨"a", "b", "k", "r", "github", []⟩ (Json.str "h1")).ext =
      "\x7b\"connections\":\x7b\"".data ++ "github".data ++ "\":\"".data
        ++ "h1".data ++ "\"\x7d\x7d".data :=
  (claim_C3_ext_canonical ⟨"a", "b", "k", "r", "github", []⟩
      ⟨201, some (Json.obj (.cons "handle" (.str "h1") .nil)), 200, some (Json.obj .nil)⟩
      (mkTokenRequest ⟨"a", "b", "k", "r", "github", []⟩ (Json.str "h1"))
      (by decide)).2.2.2 "github" "h1" rfl (by decide) (by decide) (by decide)

theorem splitDot_ne_nil (t : List Char) : splitDot t ≠ [] := by
  cases t with
  | nil => simp [splitDot]
  | cons c cs =>
    unfold splitDot
    by_cases hc : c = '.'
    · simp [hc]
    · rw [if_neg hc]
      rcases h : splitDot cs with _ | ⟨s, rest⟩
      · simp
      · simp

theorem splitDot_length (t : List Char) :
    (splitDot t).length = t.count '.' + 1 := by
  induction t with
  | nil => rfl
  | cons c cs ih =>
    unfold splitDot
    by_cases hc : c = '.'
    · subst hc
      simp [List.count_cons, ih]
    · rw [if_neg hc]
      rcases h : splitDot cs with _ | ⟨s, rest⟩
      · exact absurd h (splitDot_ne_nil cs)
      · have := ih
        rw [h] at this
        simp only [List.length_cons] at this ⊢
        rw [List.count_cons]
        simp [hc, this]

theorem splitDot_no_dot (a : List Char) (ha : '.' ∉ a) : splitDot a = [a] := by
  induction a with
  | nil => rfl
  | cons c cs ih =>
    unfold splitDot
    rw [if_neg (by intro h; exact ha (h ▸ List.mem_cons_self c cs))]
    rw [ih (fun h => ha (List.mem_cons_of_mem c h))]

theorem splitDot_cons (c : Char) (cs : List Char) :
    splitDot (c :: cs) =
      if c = '.' then [] :: splitDot cs
      else
        match splitDot cs with
        | s :: rest => (c :: s) :: rest
        | [] => [[c]] := rfl

theorem splitDot_head (a r : List Char) (ha : '.' ∉ a) :
    splitDot (a ++ '.' :: r) = a :: splitDot r := by
  induction a with
  | nil => simp [splitDot]
  | cons c cs ih =>
    have hc : ¬c = '.' := fun h => ha (h ▸ List.mem_cons_self c cs)
    rw [List.cons_append, splitDot_cons, if_neg hc,
      ih (fun h => ha (List.mem_cons_of_mem c h))]

theorem b64CharVal_alphaChar (n : Nat) (h : n < 64) : b64CharVal (alphaChar n) = some n := by
  revert n
  decide

theorem alphaChar_ne_pad (n : Nat) (h : n < 64) : alphaChar n ≠ '=' :=
  b64urlAlphabet_ne_pad _ (alphaChar_mem n h)

theorem b64EncodeRaw_nil_iff (l : List Nat) : b64EncodeRaw l = [] ↔ l = [] := by
  constructor
  · intro h
    cases l with
    | nil => rfl
    | cons x xs =>
      cases xs with
      | nil => simp [b64EncodeRaw] at h
      | cons y ys =>
        cases ys with
        | nil => simp [b64EncodeRaw] at h
        | cons z zs => simp [b64EncodeRaw] at h
  · intro h
    rw [h]
    rfl

theorem b64DecodePadded_encode (bytes : List Nat) (hb : ∀ b ∈ bytes, b < 256) :
    b64DecodePadded (b64EncodeRaw bytes) = some bytes := by
  induction bytes using b64EncodeRaw.induct with
  | case1 => rfl
  | case2 b1 =>
    have h1 := hb b1 (by simp)
    show b64DecodePadded [alphaChar (b1 / 4), alphaChar (b1 % 4 * 16), '=', '='] = some [b1]
    rw [show b64DecodePadded [alphaChar (b1 / 4), alphaChar (b1 % 4 * 16), '=', '=']
        = if ('=' : Char) = '=' ∧ ('=' : Char) = '=' then do
            let v1 ← b64CharVal (alphaChar (b1 / 4))
            let v2 ← b64CharVal (alphaChar (b1 % 4 * 16))
            pure [v1 * 4 + v2 / 16]
          else if ('=' : Char) = '=' then do
            let v1 ← b64CharVal (alphaChar (b1 / 4))
            let v2 ← b64CharVal (alphaChar (b1 % 4 * 16))
            let v3 ← b64CharVal '='
            pure [v1 * 4 + v2 / 16, v2 % 16 * 16 + v3 / 4]
          else do
            let v1 ← b64CharVal (alphaChar (b1 / 4))
            let v2 ← b64CharVal (alphaChar (b1 % 4 * 16))
            let v3 ← b64CharVal '='
            let v4 ← b64CharVal '='
            pure [v1 * 4 + v2 / 16, v2 % 16 * 16 + v3 / 4, v3 % 4 * 64 + v4]
        from rfl]
    rw [if_pos ⟨rfl, rfl⟩, b64CharVal_alphaChar _ (by omega), b64CharVal_alphaChar _ (by omega)]
    show some [b1 / 4 * 4 + b1 % 4 * 16 / 16] = some [b1]
    congr 2
    omega
  | case3 b1 b2 =>
    have h1 := hb b1 (by simp)
    have h2 := hb b2 (by simp)
    show b64DecodePadded [alphaChar (b1 / 4), alphaChar (b1 % 4 * 16 + b2 / 16),
      alphaChar (b2 % 16 * 4), '='] = some [b1, b2]
    rw [show b64DecodePadded [alphaChar (b1 / 4), alphaChar (b1 % 4 * 16 + b2 / 16),
        alphaChar (b2 % 16 * 4), '=']
        = if alphaChar (b2 % 16 * 4) = '=' ∧ ('=' : Char) = '=' then do
            let v1 ← b64CharVal (alphaChar (b1 / 4))
            let v2 ← b64CharVal (alphaChar (b1 % 4 * 16 + b2 / 16))
            pure [v1 * 4 + v2 / 16]
          else if ('=' : Char) = '=' then do
            let v1 ← b64CharVal (alphaChar (b1 / 4))
            let v2 ← b64CharVal (alphaChar (b1 % 4 * 16 + b2 / 16))
            let v3 ← b64CharVal (alphaChar (b2 % 16 * 4))
            pure [v1 * 4 + v2 / 16, v2 % 16 * 16 + v3 / 4]
          else do
            let v1 ← b64CharVal (alphaChar (b1 / 4))
            let v2 ← b64CharVal (alphaChar (b1 % 4 * 16 + b2 / 16))
            let v3 ← b64CharVal (alphaChar (b2 % 16 * 4))
            let v4 ← b64CharVal '='
            pure [v1 * 4 + v2 / 16, v2 % 16 * 16 + v3 / 4, v3 % 4 * 64 + v4]
        from rfl]
    rw [if_neg (fun hand => alphaChar_ne_pad _ (by omega) hand.1), if_pos rfl,
      b64CharVal_alphaChar _ (by omega), b64CharVal_alphaChar _ (by omega),
      b64CharVal_alphaChar _ (by omega)]
    show some [b1 / 4 * 4 + (b1 % 4 * 16 + b2 / 16) / 16,
      (b1 % 4 * 16 + b2 / 16) % 16 * 16 + b2 % 16 * 4 / 4] = some [b1, b2]
    congr 2
    · omega
    · congr 1
      omega
  | case4 b1 b2 b3 rest ih =>
    have h1 := hb b1 (by simp)
    have h2 := hb b2 (by simp)
    have h3 := hb b3 (by simp)
    have ih' := ih (fun b hbm => hb b (by simp [hbm]))
    show b64DecodePadded (alphaChar (b1 / 4) :: alphaChar (b1 % 4 * 16 + b2 / 16) ::
      alphaChar (b2 % 16 * 4 + b3 / 64) :: alphaChar (b3 % 64) :: b64EncodeRaw rest)
      = some (b1 :: b2 :: b3 :: rest)
    rcases henc : b64EncodeRaw rest with _ | ⟨e1, etl⟩
    · have hrest : rest = [] := (b64EncodeRaw_nil_iff rest).mp henc
      subst hrest
      rw [show b64DecodePadded [alphaChar (b1 / 4), alphaChar (b1 % 4 * 16 + b2 / 16),
          alphaChar (b2 % 16 * 4 + b3 / 64), alphaChar (b3 % 64)]
          = if alphaChar (b2 % 16 * 4 + b3 / 64) = '=' ∧ alphaChar (b3 % 64) = '=' then do
              let v1 ← b64CharVal (alphaChar (b1 / 4))
              let v2 ← b64CharVal (alphaChar (b1 % 4 * 16 + b2 / 16))
              pure [v1 * 4 + v2 / 16]
            else if alphaChar (b3 % 64) = '=' then do
              let v1 ← b64CharVal (alphaChar (b1 / 4))
              let v2 ← b64CharVal (alphaChar (b1 % 4 * 16 + b2 / 16))
              let v3 ← b64CharVal (alphaChar (b2 % 16 * 4 + b3 / 64))
              pure [v1 * 4 + v2 / 16, v2 % 16 * 16 + v3 / 4]
            else do
              let v1 ← b64CharVal (alphaChar (b1 / 4))
              let v2 ← b64CharVal (alphaChar (b1 % 4 * 16 + b2 / 16))
              let v3 ← b64CharVal (alphaChar (b2 % 16 * 4 + b3 / 64))
              let v4 ← b64CharVal (alphaChar (b3 % 64))
              pure [v1 * 4 + v2 / 16, v2 % 16 * 16 + v3 / 4, v3 % 4 * 64 + v4]
          from rfl]
      rw [if_neg (fun hand => alphaChar_ne_pad _ (by omega) hand.1),
        if_neg (alphaChar_ne_pad _ (by omega)),
        b64CharVal_alphaChar _ (by omega), b64CharVal_alphaChar _ (by omega),
        b64CharVal_alphaChar _ (by omega), b64CharVal_alphaChar _ (by omega)]
      show some [b1 / 4 * 4 + (b1 % 4 * 16 + b2 / 16) / 16,
        (b1 % 4 * 16 + b2 / 16) % 16 * 16 + (b2 % 16 * 4 + b3 / 64) / 4,
        (b2 % 16 * 4 + b3 / 64) % 4 * 64 + b3 % 64] = some [b1, b2, b3]
      congr 2
      · omega
      · congr 1
        · omega
        · congr 1
          omega
    · rw [henc] at ih'
      rw [show b64DecodePadded (alphaChar (b1 / 4) :: alphaChar (b1 % 4 * 16 + b2 / 16) ::
          alphaChar (b2 % 16 * 4 + b3 / 64) :: alphaChar (b3 % 64) :: e1 :: etl)
          = (do
              let v1 ← b64CharVal (alphaChar (b1 / 4))
              let v2 ← b64CharVal (alphaChar (b1 % 4 * 16 + b2 / 16))
              let v3 ← b64CharVal (alphaChar (b2 % 16 * 4 + b3 / 64))
              let v4 ← b64CharVal (alphaChar (b3 % 64))
              let tail ← b64DecodePadded (e1 :: etl)
              pure ((v1 * 4 + v2 / 16) :: (v2 % 16 * 16 + v3 / 4) :: (v3 % 4 * 64 + v4) :: tail))
          from rfl]
      rw [b64CharVal_alphaChar _ (by omega), b64CharVal_alphaChar _ (by omega),
        b64CharVal_alphaChar _ (by omega), b64CharVal_alphaChar _ (by omega), ih']
      show some ((b1 / 4 * 4 + (b1 % 4 * 16 + b2 / 16) / 16) ::
        ((b1 % 4 * 16 + b2 / 16) % 16 * 16 + (b2 % 16 * 4 + b3 / 64) / 4) ::
        ((b2 % 16 * 4 + b3 / 64) % 4 * 64 + b3 % 64) :: rest) = some (b1 :: b2 :: b3 :: rest)
      congr 2
      · omega
      · congr 1
        · omega
        · congr 1
          omega

theorem char_valid_ranges (c : Char) :
    (c.toNat < 55296 ∨ 57344 ≤ c.toNat) ∧ c.toNat < 1114112 := by
  have h := c.valid
  have hx : c.toNat = c.val.toNat := rfl
  rw [hx]
  rcases h with h | ⟨h1, h2⟩
  · exact ⟨Or.inl h, by omega⟩
  · exact ⟨Or.inr (by omega), h2⟩

/-- Restoring the stripped padding (`"=" * (-len % 4)`) recovers the
original padded encoding, for every payload length modulo 4. -/
theorem pad_restore (bytes : List Nat) (hb : ∀ b ∈ bytes, b < 256) :
    base64urlNoPad bytes ++
      List.replicate ((4 - (base64urlNoPad bytes).length % 4) % 4) '='
      = b64EncodeRaw bytes := by
  obtain ⟨core, hcore, hmem, hlen⟩ := b64EncodeRaw_decomp bytes hb
  have hb64 : base64urlNoPad bytes = core := by
    unfold base64urlNoPad
    rw [hcore, rstripEq_core_pad core _ (fun c hc => b64urlAlphabet_ne_pad c (hmem c hc))]
  rw [hb64, hlen, hcore]
  have hpad : (4 - (4 * bytes.length + 2) / 3 % 4) % 4 = b64PadLen bytes.length := by
    unfold b64PadLen
    split_ifs <;> omega
  rw [hpad]

theorem utf8EncodeChar_ascii (c : Char) (h : c.toNat < 128) :
    utf8EncodeChar c = [c.toNat] := by
  unfold utf8EncodeChar
  rw [if_pos h]

theorem utf8Encode_ascii (cs : List Char) (h : ∀ c ∈ cs, c.toNat < 128) :
    utf8Encode cs = cs.map Char.toNat := by
  induction cs with
  | nil => rfl
  | cons c tl ih =>
    unfold utf8Encode at ih ⊢
    rw [List.flatMap_cons, utf8EncodeChar_ascii c (h c (List.mem_cons_self c tl)),
      ih (fun d hd => h d (List.mem_cons_of_mem c hd)), List.map_cons]
    rfl

set_option maxHeartbeats 2000000 in
theorem utf8DecodeAux_map_ascii (cs : List Char) :
    ∀ fuel, cs.length ≤ fuel → (∀ c ∈ cs, c.toNat < 128) →
      utf8DecodeAux fuel (cs.map Char.toNat) = some cs := by
  induction cs with
  | nil => intro fuel _ _; cases fuel <;> rfl
  | cons c tl ih =>
    intro fuel hlen h
    match fuel with
    | 0 => simp at hlen
    | fuel + 1 =>
      rw [List.map_cons]
      show utf8DecodeAux (fuel + 1) (c.toNat :: tl.map Char.toNat) = _
      rw [utf8DecodeAux]
      rw [if_pos (h c (List.mem_cons_self c tl)),
        ih fuel (by simpa using Nat.lt_succ_iff.mp (Nat.lt_of_lt_of_le (by simp) hlen))
          (fun d hd => h d (List.mem_cons_of_mem c hd)),
        Option.map_some', Char.ofNat_toNat]

theorem utf8Decode_encode_ascii (cs : List Char) (h : ∀ c ∈ cs, c.toNat < 128) :
    utf8Decode (utf8Encode cs) = some cs := by
  rw [utf8Encode_ascii cs h]
  unfold utf8Decode
  exact utf8DecodeAux_map_ascii cs _ (by simp) h

theorem utf8EncodeChar_lt (c : Char) : ∀ b ∈ utf8EncodeChar c, b < 256 := by
  have hv := (char_valid_ranges c).2
  unfold utf8EncodeChar
  split_ifs with h1 h2 h3 <;> intro b hb <;>
    simp only [List.mem_cons, List.not_mem_nil, or_false] at hb
  · omega
  · rcases hb with rfl | rfl <;> omega
  · rcases hb with rfl | rfl | rfl <;> omega
  · rcases hb with rfl | rfl | rfl | rfl <;> omega

theorem utf8Encode_lt (cs : List Char) : ∀ b ∈ utf8Encode cs, b < 256 := by
  intro b hb
  unfold utf8Encode at hb
  obtain ⟨c, _, hbc⟩ := List.mem_flatMap.mp hb
  exact utf8EncodeChar_lt c b hbc

theorem b64urlAlphabet_ne_dot : ∀ c ∈ b64urlAlphabet, c ≠ '.' := by decide

theorem digitChar_props : ∀ n, n < 10 →
    (Char.ofNat (48 + n)).isDigit = true ∧ (Char.ofNat (48 + n)).toNat = 48 + n ∧
    Char.ofNat (48 + n) ≠ '-' ∧ (n ≠ 0 → Char.ofNat (48 + n) ≠ '0') := by
  decide

theorem parseDigits_cons (c : Char) (rest : List Char) (acc : Nat) :
    parseDigits (c :: rest) acc =
      if c.isDigit then parseDigits rest (acc * 10 + (c.toNat - 48))
      else (acc, c :: rest) := rfl

theorem parseDigits_stop (l : List Char) (acc : Nat)
    (h : numBoundaryOk l = true) : parseDigits l acc = (acc, l) := by
  cases l with
  | nil => rfl
  | cons c cs =>
    rw [parseDigits_cons, if_neg]
    unfold numBoundaryOk at h
    simp only [Bool.not_eq_true', Bool.or_eq_false_iff] at h
    simp [h.1.1]

theorem natDigitsAux_succ (fuel n : Nat) :
    natDigitsAux (fuel + 1) n =
      if n < 10 then [Char.ofNat (48 + n)]
      else natDigitsAux fuel (n / 10) ++ [Char.ofNat (48 + n % 10)] := rfl

theorem parseDigits_natDigitsAux :
    ∀ fuel n acc rest, n < fuel →
      parseDigits (natDigitsAux fuel n ++ rest) acc
        = parseDigits rest (acc * 10 ^ (natDigitsAux fuel n).length + n) := by
  intro fuel
  induction fuel with
  | zero => intro n acc rest h; omega
  | succ fuel ih =>
    intro n acc rest h
    rw [natDigitsAux_succ]
    by_cases h10 : n < 10
    · rw [if_pos h10]
      obtain ⟨hd, ht, _, _⟩ := digitChar_props n h10
      rw [List.cons_append, List.nil_append, parseDigits_cons, if_pos hd, ht]
      simp only [List.length_cons, List.length_nil, pow_one]
      congr 1
      omega
    · rw [if_neg h10, List.append_assoc]
      rw [ih (n / 10) acc _ (by omega)]
      obtain ⟨hd, ht, _, _⟩ := digitChar_props (n % 10) (by omega)
      rw [List.cons_append, List.nil_append, parseDigits_cons, if_pos hd, ht]
      congr 1
      rw [List.length_append, List.length_cons, List.length_nil, pow_succ]
      have h1 : (acc * 10 ^ (natDigitsAux fuel (n / 10)).length + n / 10) * 10
          = acc * (10 ^ (natDigitsAux fuel (n / 10)).length * 10) + n / 10 * 10 := by
        ring
      rw [h1]
      omega

theorem natDigits_pos_head :
    ∀ fuel n, n < fuel → 1 ≤ n →
      ∃ c cs, natDigitsAux fuel n = c :: cs ∧ c.isDigit = true ∧ c ≠ '0' ∧ c ≠ '-' := by
  intro fuel
  induction fuel with
  | zero => intro n h; omega
  | succ fuel ih =>
    intro n h h1
    rw [natDigitsAux_succ]
    by_cases h10 : n < 10
    · rw [if_pos h10]
      obtain ⟨hd, _, hm, hz⟩ := digitChar_props n h10
      exact ⟨_, _, rfl, hd, hz (by omega), hm⟩
    · rw [if_neg h10]
      obtain ⟨c, cs, hcs, hd, hz, hm⟩ := ih (n / 10) (by omega) (by omega)
      exact ⟨c, cs ++ [Char.ofNat (48 + n % 10)], by rw [hcs, List.cons_append], hd, hz, hm⟩

theorem parseNumAux_natDigits (n : Nat) (rest : List Char)
    (hb : numBoundaryOk rest = true) :
    parseNumAux (natDigits n ++ rest) = some (n, rest) := by
  by_cases h0 : n = 0
  · subst h0
    show parseNumAux ('0' :: rest) = some (0, rest)
    unfold parseNumAux
    dsimp only
    rw [if_pos rfl, if_pos hb]
  · obtain ⟨c, cs, hcs, hd, hz, _⟩ := natDigits_pos_head (n + 1) n (by omega) (by omega)
    have hacc := parseDigits_natDigitsAux (n + 1) n 0 rest (by omega)
    unfold natDigits
    rw [hcs] at hacc ⊢
    rw [List.cons_append, parseDigits_cons, if_pos hd] at hacc
    rw [parseDigits_stop rest _ hb] at hacc
    simp only [Nat.zero_mul, Nat.zero_add] at hacc
    rw [List.cons_append]
    unfold parseNumAux
    dsimp only
    rw [if_neg hz, if_pos hd, hacc]
    simp [hb]

theorem parseNumber_intRepr (m : Int) (rest : List Char)
    (hb : numBoundaryOk rest = true) :
    parseNumber (intRepr m ++ rest) = some (Json.num m, rest) := by
  cases m with
  | ofNat n =>
    show parseNumber (natDigits n ++ rest) = _
    have hhead : ¬(natDigits n ++ rest).head? = some '-' := by
      by_cases h0 : n = 0
      · subst h0
        intro hc
        exact absurd (Option.some.inj hc) (by decide)
      · obtain ⟨c, cs, hcs, _, _, hm⟩ := natDigits_pos_head (n + 1) n (by omega) (by omega)
        unfold natDigits
        rw [hcs]
        intro hc
        exact hm (Option.some.inj hc)
    unfold parseNumber
    rw [if_neg hhead, parseNumAux_natDigits n rest hb, Option.map_some']
    rfl
  | negSucc k =>
    show parseNumber (('-' :: natDigits (k + 1)) ++ rest) = _
    rw [List.cons_append]
    unfold parseNumber
    rw [if_pos (show ('-' :: (natDigits (k + 1) ++ rest)).head? = some '-' from rfl),
      show ('-' :: (natDigits (k + 1) ++ rest)).tail = natDigits (k + 1) ++ rest from rfl,
      parseNumAux_natDigits (k + 1) rest hb, Option.map_some']
    have hval : (-(((k + 1 : Nat)) : Int)) = Int.negSucc k := by
      rw [Int.negSucc_eq]
      push_cast
      ring
    rw [hval]

theorem hexDigitVal_hexDigitChar : ∀ d, d < 16 → hexDigitVal (hexDigitChar d) = some d := by
  decide

theorem hex4Val_hex4 (n : Nat) (h : n < 65536) :
    hex4Val (hexDigitChar (n / 4096 % 16)) (hexDigitChar (n / 256 % 16))
      (hexDigitChar (n / 16 % 16)) (hexDigitChar (n % 16)) = some n := by
  unfold hex4Val
  rw [hexDigitVal_hexDigitChar _ (by omega), hexDigitVal_hexDigitChar _ (by omega),
    hexDigitVal_hexDigitChar _ (by omega), hexDigitVal_hexDigitChar _ (by omega)]
  show some _ = some n
  congr 1
  omega

theorem parseEscape_u (h1 h2 h3 h4 : Char) (r : List Char) :
    parseEscape ('u' :: h1 :: h2 :: h3 :: h4 :: r) =
      match hex4Val h1 h2 h3 h4 with
      | none => none
      | some n =>
        if n < 55296 ∨ 57344 ≤ n then some (Char.ofNat n, r)
        else if n < 56320 then parseLowSurrogate n r
        else none := rfl

theorem escapeChar_spec (c : Char) :
    (escapeChar c = [c] ∧ plainChar c = true) ∨
    (∃ code, escapeChar c = '\\' :: code ∧
      ∀ tail, parseEscape (code ++ tail) = some (c, tail)) := by
  by_cases h1 : c = '"'
  · subst h1
    exact Or.inr ⟨['"'], rfl, fun tail => rfl⟩
  by_cases h2 : c = '\\'
  · subst h2
    exact Or.inr ⟨['\\'], rfl, fun tail => rfl⟩
  by_cases h3 : c = Char.ofNat 8
  · subst h3
    exact Or.inr ⟨['b'], rfl, fun tail => rfl⟩
  by_cases h4 : c = Char.ofNat 9
  · subst h4
    exact Or.inr ⟨['t'], rfl, fun tail => rfl⟩
  by_cases h5 : c = Char.ofNat 10
  · subst h5
    exact Or.inr ⟨['n'], rfl, fun tail => rfl⟩
  by_cases h6 : c = Char.ofNat 12
  · subst h6
    exact Or.inr ⟨['f'], rfl, fun tail => rfl⟩
  by_cases h7 : c = Char.ofNat 13
  · subst h7
    exact Or.inr ⟨['r'], rfl, fun tail => rfl⟩
  by_cases h8 : 32 ≤ c.toNat ∧ c.toNat ≤ 126
  · left
    constructor
    · unfold escapeChar
      rw [if_neg h1, if_neg h2, if_neg h3, if_neg h4, if_neg h5, if_neg h6, if_neg h7,
        if_pos h8]
    · unfold plainChar
      simp [h8.1, h8.2, h1, h2]
  by_cases h9 : c.toNat < 65536
  · right
    refine ⟨'u' :: hex4 c.toNat, ?_, ?_⟩
    · unfold escapeChar
      rw [if_neg h1, if_neg h2, if_neg h3, if_neg h4, if_neg h5, if_neg h6, if_neg h7,
        if_neg h8, if_pos h9]
    · intro tail
      rw [show ('u' :: hex4 c.toNat) ++ tail
          = 'u' :: hexDigitChar (c.toNat / 4096 % 16) :: hexDigitChar (c.toNat / 256 % 16)
            :: hexDigitChar (c.toNat / 16 % 16) :: hexDigitChar (c.toNat % 16) :: tail
          from rfl]
      rw [parseEscape_u, hex4Val_hex4 _ h9]
      dsimp only
      rw [if_pos (char_valid_ranges c).1, Char.ofNat_toNat]
  · right
    have hv := (char_valid_ranges c).2
    refine ⟨'u' :: (hex4 (55296 + (c.toNat - 65536) / 1024)
      ++ '\\' :: 'u' :: hex4 (56320 + (c.toNat - 65536) % 1024)), ?_, ?_⟩
    · unfold escapeChar
      rw [if_neg h1, if_neg h2, if_neg h3, if_neg h4, if_neg h5, if_neg h6, if_neg h7,
        if_neg h8, if_neg h9]
      simp [List.cons_append]
    · intro tail
      rw [show ('u' :: (hex4 (55296 + (c.toNat - 65536) / 1024)
            ++ '\\' :: 'u' :: hex4 (56320 + (c.toNat - 65536) % 1024))) ++ tail
          = 'u' :: hexDigitChar ((55296 + (c.toNat - 65536) / 1024) / 4096 % 16)
            :: hexDigitChar ((55296 + (c.toNat - 65536) / 1024) / 256 % 16)
            :: hexDigitChar ((55296 + (c.toNat - 65536) / 1024) / 16 % 16)
            :: hexDigitChar ((55296 + (c.toNat - 65536) / 1024) % 16)
            :: ('\\' :: 'u' :: hexDigitChar ((56320 + (c.toNat - 65536) % 1024) / 4096 % 16)
            :: hexDigitChar ((56320 + (c.toNat - 65536) % 1024) / 256 % 16)
            :: hexDigitChar ((56320 + (c.toNat - 65536) % 1024) / 16 % 16)
            :: hexDigitChar ((56320 + (c.toNat - 65536) % 1024) % 16) :: tail)
          from rfl]
      rw [parseEscape_u, hex4Val_hex4 _ (by omega)]
      dsimp only
      rw [if_neg (by omega : ¬(55296 + (c.toNat - 65536) / 1024 < 55296 ∨
            57344 ≤ 55296 + (c.toNat - 65536) / 1024)),
        if_pos (by omega : 55296 + (c.toNat - 65536) / 1024 < 56320)]
      rw [parseLowSurrogate]
      rw [if_pos ⟨rfl, rfl⟩, hex4Val_hex4 _ (by omega)]
      dsimp only
      rw [if_pos ⟨by omega, by omega⟩]
      have heq : 65536 + (55296 + (c.toNat - 65536) / 1024 - 55296) * 1024 +
          (56320 + (c.toNat - 65536) % 1024 - 56320) = c.toNat := by omega
      rw [heq, Char.ofNat_toNat]

theorem plainChar_props (c : Char) (h : plainChar c = true) :
    ¬c = '"' ∧ ¬c = '\\' ∧ 32 ≤ c.toNat := by
  unfold plainChar at h
  simp only [Bool.and_eq_true, decide_eq_true_eq] at h
  exact ⟨h.1.2, h.2, h.1.1.1⟩

theorem escapeChar_length_pos (c : Char) : 1 ≤ (escapeChar c).length := by
  rcases escapeChar_spec c with ⟨h, _⟩ | ⟨code, h, _⟩ <;> rw [h] <;> simp

theorem parseStringAux_quoted (l : List Char) :
    ∀ fuel rest, l.length < fuel →
      parseStringAux fuel (l.flatMap escapeChar ++ '"' :: rest) = some (l, rest) := by
  induction l with
  | nil =>
    intro fuel rest h
    match fuel with
    | f + 1 =>
      show parseStringAux (f + 1) ('"' :: rest) = some ([], rest)
      rw [parseStringAux, if_pos rfl]
  | cons c tl ih =>
    intro fuel rest h
    match fuel with
    | f + 1 =>
      rw [List.flatMap_cons, List.append_assoc]
      rcases escapeChar_spec c with ⟨hesc, hplain⟩ | ⟨code, hesc, hparse⟩
      · obtain ⟨h1, h2, h32⟩ := plainChar_props c hplain
        rw [hesc, List.singleton_append]
        rw [parseStringAux, if_neg h1, if_neg h2, if_pos h32,
          ih f rest (by simp only [List.length_cons] at h; omega), Option.map_some']
      · rw [hesc, List.cons_append]
        rw [parseStringAux, if_neg (by decide : ¬('\\' : Char) = '"'), if_pos rfl,
          hparse (tl.flatMap escapeChar ++ '"' :: rest)]
        dsimp only
        rw [ih f rest (by simp only [List.length_cons] at h; omega), Option.map_some']

theorem parseStringBody_quoted (l rest : List Char) :
    parseStringBody (l.flatMap escapeChar ++ '"' :: rest) = some (l, rest) := by
  unfold parseStringBody
  apply parseStringAux_quoted
  have hlen : l.length ≤ (l.flatMap escapeChar).length := by
    induction l with
    | nil => simp
    | cons c tl ih =>
      rw [List.flatMap_cons, List.length_append, List.length_cons]
      have := escapeChar_length_pos c
      omega
  rw [List.length_append, List.length_cons]
  omega

theorem skipWs_cons (c : Char) (l : List Char)
    (h : ¬(c = ' ' ∨ c = '\t' ∨ c = '\n' ∨ c = '\r')) : skipWs (c :: l) = c :: l := by
  rw [skipWs, if_neg h]

theorem natDigitsAux_head_range :
    ∀ fuel n, 1 ≤ fuel →
      ∃ c cs, natDigitsAux fuel n = c :: cs ∧ 48 ≤ c.toNat ∧ c.toNat ≤ 57 := by
  intro fuel
  induction fuel with
  | zero => intro n h; omega
  | succ fuel ih =>
    intro n _
    rw [natDigitsAux_succ]
    by_cases h10 : n < 10
    · rw [if_pos h10]
      obtain ⟨_, ht, _, _⟩ := digitChar_props n h10
      exact ⟨_, _, rfl, by omega, by omega⟩
    · rw [if_neg h10]
      cases fuel with
      | zero =>
        obtain ⟨_, ht, _, _⟩ := digitChar_props (n % 10) (by omega)
        exact ⟨Char.ofNat (48 + n % 10), [], rfl, by omega, by omega⟩
      | succ f =>
        obtain ⟨c, cs, hcs, h48, h57⟩ := ih (n / 10) (by omega)
        exact ⟨c, cs ++ [Char.ofNat (48 + n % 10)], by rw [hcs, List.cons_append], h48, h57⟩

theorem intRepr_head (n : Int) :
    ∃ c cs, intRepr n = c :: cs ∧ 45 ≤ c.toNat ∧ c.toNat ≤ 57 := by
  cases n with
  | ofNat m =>
    obtain ⟨c, cs, hcs, h48, h57⟩ := natDigitsAux_head_range (m + 1) m (by omega)
    exact ⟨c, cs, hcs, by omega, h57⟩
  | negSucc m => exact ⟨'-', _, rfl, by decide, by decide⟩

theorem dumps_head_spec (j : Json) :
    ∃ c cs, j.dumpsPlain = c :: cs ∧
      ¬(c = ' ' ∨ c = '\t' ∨ c = '\n' ∨ c = '\r') ∧ c ≠ ']' := by
  cases j with
  | null => exact ⟨'n', _, rfl, by decide, by decide⟩
  | bool b =>
    cases b
    · exact ⟨'f', _, rfl, by decide, by decide⟩
    · exact ⟨'t', _, rfl, by decide, by decide⟩
  | num n =>
    obtain ⟨c, cs, hcs, h45, h57⟩ := intRepr_head n
    refine ⟨c, cs, hcs, ?_, ?_⟩
    · intro h
      rcases h with h | h | h | h <;> (rw [h] at h45; exact absurd h45 (by decide))
    · intro h
      rw [h] at h57
      exact absurd h57 (by decide)
  | str s => exact ⟨'"', s.data.flatMap escapeChar ++ ['"'], rfl, by decide, by decide⟩
  | arr xs => exact ⟨'[', xs.dumpsElems ++ [']'], rfl, by decide, by decide⟩
  | obj fs => exact ⟨'\x7b', fs.dumpsFields ++ ['\x7d'], rfl, by decide, by decide⟩

theorem Json.weight_pos (j : Json) : 1 ≤ j.weight := by
  cases j <;> simp [Json.weight]

theorem JsonList.weightL_pos (xs : JsonList) (h : xs ≠ JsonList.nil) : 1 ≤ xs.weightL := by
  cases xs with
  | nil => exact absurd rfl h
  | cons x tl => simp only [JsonList.weightL]; omega

theorem JsonObj.weightO_pos (fs : JsonObj) (h : fs ≠ JsonObj.nil) : 1 ≤ fs.weightO := by
  cases fs with
  | nil => exact absurd rfl h
  | cons k v tl => simp only [JsonObj.weightO]; omega

theorem numOk_cons (j : Json) (c : Char) (l : List Char)
    (h : numBoundaryOk (c :: l) = true) : numOk j (c :: l) := by
  cases j <;> trivial

theorem numBoundaryOk_irrel (c : Char) (l l' : List Char) :
    numBoundaryOk (c :: l) = numBoundaryOk (c :: l') := rfl

theorem append_hasKey (a b : JsonObj) (k : String) :
    (a.append b).hasKey k = (a.hasKey k || b.hasKey k) := by
  induction a using JsonObj.indOn with
  | hnil => rfl
  | hcons k2 v2 tl ih =>
    show (if k = k2 then some v2 else JsonObj.lookup k (tl.append b)).isSome =
      ((if k = k2 then some v2 else JsonObj.lookup k tl).isSome || JsonObj.hasKey k b)
    by_cases hk : k = k2
    · rw [if_pos hk, if_pos hk]
      rfl
    · rw [if_neg hk, if_neg hk]
      exact ih

theorem append_nil_obj (a : JsonObj) : a.append .nil = a := by
  induction a using JsonObj.indOn with
  | hnil => rfl
  | hcons k v tl ih =>
    show JsonObj.cons k v (tl.append .nil) = _
    rw [ih]

theorem append_assoc_obj (a b c : JsonObj) :
    (a.append b).append c = a.append (b.append c) := by
  induction a using JsonObj.indOn with
  | hnil => rfl
  | hcons k v tl ih =>
    show JsonObj.cons k v ((tl.append b).append c) = JsonObj.cons k v (tl.append (b.append c))
    rw [ih]

theorem setKey_not_hasKey (acc : JsonObj) (k : String) (v : Json)
    (h : acc.hasKey k = false) :
    acc.setKey k v = acc.append (.cons k v .nil) := by
  induction acc using JsonObj.indOn with
  | hnil => rfl
  | hcons k2 v2 tl ih =>
    unfold JsonObj.hasKey JsonObj.lookup at h
    by_cases hk : k = k2
    · rw [if_pos hk] at h
      simp at h
    · rw [if_neg hk] at h
      show JsonObj.setKey (JsonObj.cons k2 v2 tl) k v = _
      unfold JsonObj.setKey
      rw [if_neg hk, ih h]
      rfl


theorem dedupAux_app :
    ∀ fs acc, fs.keysNodup = true →
      (∀ k2, fs.hasKey k2 = true → acc.hasKey k2 = false) →
      JsonObj.dedupAux acc fs = acc.append fs := by
  intro fs
  induction fs using JsonObj.indOn with
  | hnil =>
    intro acc _ _
    exact (append_nil_obj acc).symm
  | hcons k v tl ih =>
    intro acc hnodup hdisj
    unfold JsonObj.keysNodup at hnodup
    simp only [Bool.and_eq_true, Bool.not_eq_true'] at hnodup
    show JsonObj.dedupAux (acc.setKey k v) tl = _
    have hacck : acc.hasKey k = false := by
      apply hdisj
      unfold JsonObj.hasKey JsonObj.lookup
      rw [if_pos rfl]
      rfl
    rw [setKey_not_hasKey acc k v hacck]
    have hdisj2 : ∀ k2, tl.hasKey k2 = true →
        (acc.append (.cons k v .nil)).hasKey k2 = false := by
      intro k2 hk2
      rw [append_hasKey]
      have hne : ¬ k2 = k := by
        intro hkk
        rw [hkk] at hk2
        rw [hnodup.1] at hk2
        cases hk2
      have hacc2 : acc.hasKey k2 = false := by
        apply hdisj
        unfold JsonObj.hasKey JsonObj.lookup
        rw [if_neg hne]
        exact hk2
      have hsing : (JsonObj.cons k v JsonObj.nil).hasKey k2 = false := by
        unfold JsonObj.hasKey JsonObj.lookup
        rw [if_neg hne]
        rfl
      rw [hacc2, hsing]
      rfl
    rw [ih _ hnodup.2 hdisj2, append_assoc_obj]
    rfl

theorem dedup_nodup (fs : JsonObj) (h : fs.keysNodup = true) : fs.dedup = fs := by
  show JsonObj.dedupAux .nil fs = fs
  rw [dedupAux_app fs .nil h (fun _ _ => rfl)]
  rfl

theorem hexDigitChar_ascii : ∀ n, n < 16 → (hexDigitChar n).toNat < 128 := by decide

theorem hex4_ascii (n : Nat) : ∀ d ∈ hex4 n, d.toNat < 128 := by
  intro d hd
  unfold hex4 at hd
  simp only [List.mem_cons, List.not_mem_nil, or_false] at hd
  rcases hd with rfl | rfl | rfl | rfl <;>
    exact hexDigitChar_ascii _ (Nat.mod_lt _ (by omega))

theorem escapeChar_ascii (c : Char) : ∀ d ∈ escapeChar c, d.toNat < 128 := by
  intro d hd
  unfold escapeChar at hd
  split_ifs at hd with h1 h2 h3 h4 h5 h6 h7 h8 h9
  · simp only [List.mem_cons, List.not_mem_nil, or_false] at hd
    rcases hd with rfl | rfl <;> decide
  · simp only [List.mem_cons, List.not_mem_nil, or_false] at hd
    rcases hd with rfl | rfl <;> decide
  · simp only [List.mem_cons, List.not_mem_nil, or_false] at hd
    rcases hd with rfl | rfl <;> decide
  · simp only [List.mem_cons, List.not_mem_nil, or_false] at hd
    rcases hd with rfl | rfl <;> decide
  · simp only [List.mem_cons, List.not_mem_nil, or_false] at hd
    rcases hd with rfl | rfl <;> decide
  · simp only [List.mem_cons, List.not_mem_nil, or_false] at hd
    rcases hd with rfl | rfl <;> decide
  · simp only [List.mem_cons, List.not_mem_nil, or_false] at hd
    rcases hd with rfl | rfl <;> decide
  · simp only [List.mem_singleton] at hd
    subst hd
    omega
  · simp only [List.mem_cons] at hd
    rcases hd with rfl | rfl | h
    · decide
    · decide
    · exact hex4_ascii _ d h
  · rcases List.mem_append.mp hd with h | h <;>
      (simp only [List.mem_cons] at h;
       rcases h with rfl | rfl | h
       · decide
       · decide
       · exact hex4_ascii _ d h)

theorem natDigitsAux_ascii : ∀ fuel n d, d ∈ natDigitsAux fuel n → d.toNat < 128 := by
  intro fuel
  induction fuel with
  | zero =>
    intro n d hd
    rw [show natDigitsAux 0 n = [] from rfl] at hd
    exact absurd hd (List.not_mem_nil d)
  | succ fuel ih =>
    intro n d hd
    rw [natDigitsAux_succ] at hd
    by_cases h10 : n < 10
    · rw [if_pos h10] at hd
      simp only [List.mem_singleton] at hd
      subst hd
      have hall : ∀ m, m < 10 → (Char.ofNat (48 + m)).toNat < 128 := by decide
      exact hall n h10
    · rw [if_neg h10] at hd
      rcases List.mem_append.mp hd with h | h
      · exact ih _ _ h
      · simp only [List.mem_singleton] at h
        subst h
        have hall : ∀ m, m < 10 → (Char.ofNat (48 + m)).toNat < 128 := by decide
        exact hall _ (Nat.mod_lt _ (by omega))

theorem intRepr_ascii (n : Int) : ∀ d ∈ intRepr n, d.toNat < 128 := by
  intro d hd
  cases n with
  | ofNat m => exact natDigitsAux_ascii _ _ _ hd
  | negSucc m =>
    rcases List.mem_cons.mp hd with rfl | h
    · decide
    · exact natDigitsAux_ascii _ _ _ h

theorem quoteString_ascii (s : String) : ∀ d ∈ quoteString s, d.toNat < 128 := by
  intro d hd
  unfold quoteString at hd
  rcases List.mem_append.mp hd with h | h
  · rcases List.mem_cons.mp h with rfl | h
    · decide
    · obtain ⟨c, _, hc⟩ := List.mem_flatMap.mp h
      exact escapeChar_ascii c d hc
  · simp only [List.mem_singleton] at h
    subst h
    decide

theorem dumps_ascii_fuel :
    ∀ fuel : Nat,
      (∀ j : Json, j.weight ≤ fuel → ∀ d ∈ j.dumpsPlain, d.toNat < 128) ∧
      (∀ xs : JsonList, xs.weightL ≤ fuel → ∀ d ∈ xs.dumpsElems, d.toNat < 128) ∧
      (∀ fs : JsonObj, fs.weightO ≤ fuel → ∀ d ∈ fs.dumpsFields, d.toNat < 128) := by
  intro fuel
  induction fuel with
  | zero =>
    refine ⟨?_, ?_, ?_⟩
    · intro j hw
      have := Json.weight_pos j
      omega
    · intro xs hw d hd
      cases xs with
      | nil =>
        rw [show JsonList.dumpsElems .nil = [] from rfl] at hd
        exact absurd hd (List.not_mem_nil d)
      | cons x tl =>
        have := JsonList.weightL_pos (.cons x tl) (by intro h; cases h)
        omega
    · intro fs hw d hd
      cases fs with
      | nil =>
        rw [show JsonObj.dumpsFields .nil = [] from rfl] at hd
        exact absurd hd (List.not_mem_nil d)
      | cons k v tl =>
        have := JsonObj.weightO_pos (.cons k v tl) (by intro h; cases h)
        omega
  | succ fuel ih =>
    obtain ⟨ihV, ihE, ihF⟩ := ih
    refine ⟨?_, ?_, ?_⟩
    · intro j hw d hd
      cases j with
      | null =>
        simp only [Json.dumpsPlain, List.mem_cons, List.not_mem_nil, or_false] at hd
        rcases hd with rfl | rfl | rfl | rfl <;> decide
      | bool b =>
        cases b <;>
          (simp only [Json.dumpsPlain, List.mem_cons, List.not_mem_nil, or_false] at hd) <;>
          first
            | (rcases hd with rfl | rfl | rfl | rfl <;> decide)
            | (rcases hd with rfl | rfl | rfl | rfl | rfl <;> decide)
      | num n => exact intRepr_ascii n d hd
      | str s => exact quoteString_ascii s d hd
      | arr xs =>
        simp only [Json.dumpsPlain] at hd
        rcases List.mem_append.mp hd with h | h
        · rcases List.mem_cons.mp h with rfl | h
          · decide
          · exact ihE xs (by simp only [Json.weight] at hw; omega) d h
        · simp only [List.mem_singleton] at h
          subst h
          decide
      | obj fs =>
        simp only [Json.dumpsPlain] at hd
        rcases List.mem_append.mp hd with h | h
        · rcases List.mem_cons.mp h with rfl | h
          · decide
          · exact ihF fs (by simp only [Json.weight] at hw; omega) d h
        · simp only [List.mem_singleton] at h
          subst h
          decide
    · intro xs hw d hd
      cases xs with
      | nil =>
        rw [show JsonList.dumpsElems .nil = [] from rfl] at hd
        exact absurd hd (List.not_mem_nil d)
      | cons x tl =>
        cases tl with
        | nil =>
          exact ihV x (by simp only [JsonList.weightL] at hw; omega) d hd
        | cons y ys =>
          simp only [JsonList.dumpsElems] at hd
          rcases List.mem_append.mp hd with h | h
          · exact ihV x (by simp only [JsonList.weightL] at hw; omega) d h
          · rcases List.mem_cons.mp h with rfl | h
            · decide
            · exact ihE (.cons y ys) (by simp only [JsonList.weightL] at hw ⊢; omega) d h
    · intro fs hw d hd
      cases fs with
      | nil =>
        rw [show JsonObj.dumpsFields .nil = [] from rfl] at hd
        exact absurd hd (List.not_mem_nil d)
      | cons k v tl =>
        cases tl with
        | nil =>
          simp only [JsonObj.dumpsFields] at hd
          rcases List.mem_append.mp hd with h | h
          · exact quoteString_ascii k d h
          · rcases List.mem_cons.mp h with rfl | h
            · decide
            · exact ihV v (by simp only [JsonObj.weightO] at hw; omega) d h
        | cons k2 v2 tl2 =>
          simp only [JsonObj.dumpsFields] at hd
          rcases List.mem_append.mp hd with h | h
          · rcases List.mem_append.mp h with h2 | h2
            · exact quoteString_ascii k d h2
            · rcases List.mem_cons.mp h2 with rfl | h2
              · decide
              · exact ihV v (by simp only [JsonObj.weightO] at hw; omega) d h2
          · rcases List.mem_cons.mp h with rfl | h
            · decide
            · exact ihF (.cons k2 v2 tl2) (by simp only [JsonObj.weightO] at hw ⊢; omega) d h

theorem dumpsPlain_ascii (j : Json) : ∀ d ∈ j.dumpsPlain, d.toNat < 128 :=
  (dumps_ascii_fuel j.weight).1 j (Nat.le_refl _)

theorem parseValue_succ (fuel : Nat) (input : List Char) :
    parseValue (fuel + 1) input
      = parseValueBody (parseElements fuel) (parseMembers fuel) input := by
  rw [parseValue.eq_def]

theorem parseElements_succ (fuel : Nat) (input : List Char) :
    parseElements (fuel + 1) input =
      (parseValue fuel input).bind fun p =>
        if (skipWs p.2).head? = some ',' then
          (parseElements fuel (skipWs (skipWs p.2).tail)).map fun q =>
            (JsonList.cons p.1 q.1, q.2)
        else if (skipWs p.2).head? = some ']' then some (.cons p.1 .nil, (skipWs p.2).tail)
        else none := by
  rw [parseElements.eq_def]

theorem parseMembers_succ (fuel : Nat) (input : List Char) :
    parseMembers (fuel + 1) input =
      (if input.head? = some '"' then
        (parseStringBody input.tail).bind fun kp =>
          if (skipWs kp.2).head? = some ':' then
            (parseValue fuel (skipWs (skipWs kp.2).tail)).bind fun vp =>
              if (skipWs vp.2).head? = some ',' then
                (parseMembers fuel (skipWs (skipWs vp.2).tail)).map fun q =>
                  (JsonObj.cons (String.mk kp.1) vp.1 q.1, q.2)
              else if (skipWs vp.2).head? = some '\x7d' then
                some (.cons (String.mk kp.1) vp.1 .nil, (skipWs vp.2).tail)
              else none
          else none
      else none) := by
  rw [parseMembers.eq_def]

theorem parseValueBody_cons
    (pE : List Char → Option (JsonList × List Char))
    (pM : List Char → Option (JsonObj × List Char)) (c : Char) (rest : List Char) :
    parseValueBody pE pM (c :: rest) =
      (if c = 'n' then
        match rest with
        | 'u' :: 'l' :: 'l' :: r => some (.null, r)
        | _ => none
      else if c = 't' then
        match rest with
        | 'r' :: 'u' :: 'e' :: r => some (.bool true, r)
        | _ => none
      else if c = 'f' then
        match rest with
        | 'a' :: 'l' :: 's' :: 'e' :: r => some (.bool false, r)
        | _ => none
      else if c = '"' then
        (parseStringBody rest).map fun p => (Json.str (String.mk p.1), p.2)
      else if c = '[' then
        if (skipWs rest).head? = some ']' then some (.arr .nil, (skipWs rest).tail)
        else (pE (skipWs rest)).map fun p => (Json.arr p.1, p.2)
      else if c = '\x7b' then
        if (skipWs rest).head? = some '\x7d' then some (.obj .nil, (skipWs rest).tail)
        else (pM (skipWs rest)).map fun p => (Json.obj p.1.dedup, p.2)
      else parseNumber (c :: rest)) := by
  rw [parseValueBody.eq_def]

theorem dumpsElems_cons_head (x : Json) (tl : JsonList) :
    ∃ c t, JsonList.dumpsElems (.cons x tl) = c :: t ∧
      ¬(c = ' ' ∨ c = '\t' ∨ c = '\n' ∨ c = '\r') ∧ c ≠ ']' := by
  obtain ⟨c, cs, hcs, hws, hbr⟩ := dumps_head_spec x
  cases tl with
  | nil =>
    refine ⟨c, cs, ?_, hws, hbr⟩
    simp only [JsonList.dumpsElems]
    exact hcs
  | cons y ys =>
    refine ⟨c, cs ++ ',' :: JsonList.dumpsElems (.cons y ys), ?_, hws, hbr⟩
    simp only [JsonList.dumpsElems]
    rw [hcs, List.cons_append]

theorem dumpsFields_cons_head (k : String) (v : Json) (tl : JsonObj) :
    ∃ t, JsonObj.dumpsFields (.cons k v tl) = '"' :: t := by
  cases tl with
  | nil =>
    refine ⟨k.data.flatMap escapeChar ++ '"' :: ':' :: v.dumpsPlain, ?_⟩
    simp only [JsonObj.dumpsFields]
    unfold quoteString
    simp
  | cons k2 v2 tl2 =>
    refine ⟨k.data.flatMap escapeChar ++ '"' ::  ':' ::
      (v.dumpsPlain ++ ',' :: JsonObj.dumpsFields (.cons k2 v2 tl2)), ?_⟩
    simp only [JsonObj.dumpsFields]
    unfold quoteString
    simp

theorem dumpsElems_decomp_nil (x : Json) (r : List Char) :
    JsonList.dumpsElems (.cons x .nil) ++ r = x.dumpsPlain ++ r := by
  simp only [JsonList.dumpsElems]

theorem dumpsElems_decomp_cons (x y : Json) (ys : JsonList) (r : List Char) :
    JsonList.dumpsElems (.cons x (.cons y ys)) ++ r =
      x.dumpsPlain ++ ',' :: (JsonList.dumpsElems (.cons y ys) ++ r) := by
  simp only [JsonList.dumpsElems]
  simp

theorem dumpsFields_decomp_nil (k : String) (v : Json) (r : List Char) :
    JsonObj.dumpsFields (.cons k v .nil) ++ r =
      '"' :: (k.data.flatMap escapeChar ++ '"' :: (':' :: (v.dumpsPlain ++ r))) := by
  simp only [JsonObj.dumpsFields]
  unfold quoteString
  simp

theorem dumpsFields_decomp_cons (k : String) (v : Json) (k2 : String) (v2 : Json)
    (tl2 : JsonObj) (r : List Char) :
    JsonObj.dumpsFields (.cons k v (.cons k2 v2 tl2)) ++ r =
      '"' :: (k.data.flatMap escapeChar ++ '"' :: (':' :: (v.dumpsPlain ++
        ',' :: (JsonObj.dumpsFields (.cons k2 v2 tl2) ++ r)))) := by
  simp only [JsonObj.dumpsFields]
  unfold quoteString
  simp

/-- The serializer/parser roundtrip, proved for all three mutual parsers at
once by induction on the fuel. -/
theorem parse_dumps_fuel :
    ∀ fuel : Nat,
      (∀ (j : Json) (rest : List Char), j.weight ≤ fuel → j.wfKeys = true →
        numOk j rest → parseValue fuel (j.dumpsPlain ++ rest) = some (j, rest)) ∧
      (∀ (xs : JsonList) (rest : List Char), xs.weightL ≤ fuel → xs.wfKeysL = true →
        xs ≠ JsonList.nil →
        parseElements fuel (xs.dumpsElems ++ ']' :: rest) = some (xs, rest)) ∧
      (∀ (fs : JsonObj) (rest : List Char), fs.weightO ≤ fuel → fs.wfKeysO = true →
        fs ≠ JsonObj.nil →
        parseMembers fuel (fs.dumpsFields ++ '\x7d' :: rest) = some (fs, rest)) := by
  intro fuel
  induction fuel with
  | zero =>
    refine ⟨?_, ?_, ?_⟩
    · intro j rest hw _ _
      have := Json.weight_pos j
      omega
    · intro xs rest hw _ hne
      have := JsonList.weightL_pos xs hne
      omega
    · intro fs rest hw _ hne
      have := JsonObj.weightO_pos fs hne
      omega
  | succ fuel ih =>
    obtain ⟨ihV, ihE, ihM⟩ := ih
    refine ⟨?_, ?_, ?_⟩
    · intro j rest hw hwf hnum
      cases j with
      | null => exact rfl
      | bool b => cases b <;> exact rfl
      | num n =>
        obtain ⟨c, cs, hcs, h45, h57⟩ := intRepr_head n
        have hge : ∀ d : Char, 58 ≤ d.toNat → c ≠ d := by
          intro d hd h
          rw [h] at h57
          omega
        have hlt : ∀ d : Char, d.toNat < 45 → c ≠ d := by
          intro d hd h
          rw [h] at h45
          omega
        show parseValue (fuel + 1) (intRepr n ++ rest) = some (.num n, rest)
        rw [hcs, List.cons_append, parseValue_succ, parseValueBody_cons,
          if_neg (hge 'n' (by decide)), if_neg (hge 't' (by decide)),
          if_neg (hge 'f' (by decide)), if_neg (hlt '"' (by decide)),
          if_neg (hge '[' (by decide)), if_neg (hge '\x7b' (by decide)),
          ← List.cons_append, ← hcs]
        exact parseNumber_intRepr n rest hnum
      | str s =>
        have hq : Json.dumpsPlain (.str s) ++ rest
            = '"' :: (s.data.flatMap escapeChar ++ '"' :: rest) := by
          show (('"' :: s.data.flatMap escapeChar) ++ ['"']) ++ rest = _
          simp
        rw [hq, parseValue_succ, parseValueBody_cons,
          if_neg (by decide), if_neg (by decide), if_neg (by decide), if_pos rfl,
          parseStringBody_quoted]
        rfl
      | arr xs =>
        cases xs with
        | nil => exact rfl
        | cons x tl =>
          have hsplit : Json.dumpsPlain (.arr (.cons x tl)) ++ rest
              = '[' :: (JsonList.dumpsElems (.cons x tl) ++ ']' :: rest) := by
            show ('[' :: JsonList.dumpsElems (.cons x tl) ++ [']']) ++ rest = _
            simp
          rw [hsplit, parseValue_succ, parseValueBody_cons,
            if_neg (by decide), if_neg (by decide), if_neg (by decide),
            if_neg (by decide), if_pos rfl]
          obtain ⟨c, t, hct, hws, hbr⟩ := dumpsElems_cons_head x tl
          rw [hct, List.cons_append, skipWs_cons _ _ hws, List.head?_cons,
            if_neg (fun h => hbr (Option.some.inj h)),
            ← List.cons_append, ← hct]
          have hwe : JsonList.weightL (.cons x tl) ≤ fuel := by
            simp only [Json.weight] at hw
            omega
          have hwfe : JsonList.wfKeysL (.cons x tl) = true := by
            simp only [Json.wfKeys] at hwf
            exact hwf
          rw [ihE (.cons x tl) rest hwe hwfe (by intro h; cases h)]
          rfl
      | obj fs =>
        cases fs with
        | nil => exact rfl
        | cons k v tl =>
          have hsplit : Json.dumpsPlain (.obj (.cons k v tl)) ++ rest
              = '\x7b' :: (JsonObj.dumpsFields (.cons k v tl) ++ '\x7d' :: rest) := by
            show ('\x7b' :: JsonObj.dumpsFields (.cons k v tl) ++ ['\x7d']) ++ rest = _
            simp
          rw [hsplit, parseValue_succ, parseValueBody_cons,
            if_neg (by decide), if_neg (by decide), if_neg (by decide),
            if_neg (by decide), if_neg (by decide), if_pos rfl]
          obtain ⟨t, ht⟩ := dumpsFields_cons_head k v tl
          rw [ht, List.cons_append, skipWs_cons _ _ (by decide), List.head?_cons,
            if_neg (by decide), ← List.cons_append, ← ht]
          have hwm : JsonObj.weightO (.cons k v tl) ≤ fuel := by
            simp only [Json.weight] at hw
            omega
          have hwfm : JsonObj.wfKeysO (.cons k v tl) = true := by
            simp only [Json.wfKeys, Bool.and_eq_true] at hwf
            exact hwf.2
          rw [ihM (.cons k v tl) rest hwm hwfm (by intro h; cases h)]
          have hnd : (JsonObj.cons k v tl).keysNodup = true := by
            simp only [Json.wfKeys, Bool.and_eq_true] at hwf
            exact hwf.1
          show some (Json.obj (JsonObj.cons k v tl).dedup, rest) = _
          rw [dedup_nodup _ hnd]
    · intro xs rest hw hwf hne
      cases xs with
      | nil => exact absurd rfl hne
      | cons x tl =>
        have hwx : x.weight ≤ fuel := by
          simp only [JsonList.weightL] at hw
          omega
        have hwfx : x.wfKeys = true := by
          simp only [JsonList.wfKeysL, Bool.and_eq_true] at hwf
          exact hwf.1
        rw [parseElements_succ]
        cases tl with
        | nil =>
          rw [dumpsElems_decomp_nil,
            ihV x (']' :: rest) hwx hwfx (numOk_cons _ _ _ rfl)]
          dsimp only [Option.bind]
          rw [skipWs_cons _ _ (by decide)]
          simp only [List.head?_cons, List.tail_cons]
          rw [if_pos trivial]
          rfl
        | cons y ys =>
          rw [dumpsElems_decomp_cons,
            ihV x (',' :: (JsonList.dumpsElems (.cons y ys) ++ ']' :: rest))
              hwx hwfx (numOk_cons _ _ _ rfl)]
          dsimp only [Option.bind]
          rw [skipWs_cons _ _ (by decide)]
          simp only [List.head?_cons, List.tail_cons]
          rw [if_pos trivial]
          obtain ⟨c, t, hct, hws, _⟩ := dumpsElems_cons_head y ys
          rw [hct, List.cons_append, skipWs_cons _ _ hws, ← List.cons_append, ← hct]
          have hwe2 : JsonList.weightL (.cons y ys) ≤ fuel := by
            simp only [JsonList.weightL] at hw ⊢
            omega
          have hwfe2 : JsonList.wfKeysL (.cons y ys) = true := by
            simp only [JsonList.wfKeysL, Bool.and_eq_true] at hwf ⊢
            exact hwf.2
          rw [ihE (.cons y ys) rest hwe2 hwfe2 (by intro h; cases h)]
          rfl
    · intro fs rest hw hwf hne
      cases fs with
      | nil => exact absurd rfl hne
      | cons k v tl =>
        have hwv : v.weight ≤ fuel := by
          simp only [JsonObj.weightO] at hw
          omega
        have hwfv : v.wfKeys = true := by
          simp only [JsonObj.wfKeysO, Bool.and_eq_true] at hwf
          exact hwf.1
        rw [parseMembers_succ]
        cases tl with
        | nil =>
          rw [dumpsFields_decomp_nil]
          simp only [List.head?_cons, List.tail_cons]
          rw [if_pos trivial, parseStringBody_quoted]
          dsimp only [Option.bind]
          rw [skipWs_cons _ _ (by decide)]
          simp only [List.head?_cons, List.tail_cons]
          rw [if_pos trivial]
          obtain ⟨c, cs, hcs, hws, _⟩ := dumps_head_spec v
          rw [hcs, List.cons_append, skipWs_cons _ _ hws, ← List.cons_append, ← hcs,
            ihV v ('\x7d' :: rest) hwv hwfv (numOk_cons _ _ _ rfl)]
          dsimp only [Option.bind]
          rw [skipWs_cons _ _ (by decide)]
          simp only [List.head?_cons, List.tail_cons]
          rw [if_pos trivial]
          rfl
        | cons k2 v2 tl2 =>
          rw [dumpsFields_decomp_cons]
          simp only [List.head?_cons, List.tail_cons]
          rw [if_pos trivial, parseStringBody_quoted]
          dsimp only [Option.bind]
          rw [skipWs_cons _ _ (by decide)]
          simp only [List.head?_cons, List.tail_cons]
          rw [if_pos trivial]
          obtain ⟨c, cs, hcs, hws, _⟩ := dumps_head_spec v
          rw [hcs, List.cons_append, skipWs_cons _ _ hws, ← List.cons_append, ← hcs,
            ihV v (',' :: (JsonObj.dumpsFields (.cons k2 v2 tl2) ++ '\x7d' :: rest))
              hwv hwfv (numOk_cons _ _ _ rfl)]
          dsimp only [Option.bind]
          rw [skipWs_cons _ _ (by decide)]
          simp only [List.head?_cons, List.tail_cons]
          rw [if_pos trivial]
          obtain ⟨t2, ht2⟩ := dumpsFields_cons_head k2 v2 tl2
          rw [ht2, List.cons_append, skipWs_cons _ _ (by decide), ← List.cons_append, ← ht2]
          have hwm2 : JsonObj.weightO (.cons k2 v2 tl2) ≤ fuel := by
            simp only [JsonObj.weightO] at hw ⊢
            omega
          have hwfm2 : JsonObj.wfKeysO (.cons k2 v2 tl2) = true := by
            simp only [JsonObj.wfKeysO, Bool.and_eq_true] at hwf ⊢
            exact hwf.2
          rw [ihM (.cons k2 v2 tl2) rest hwm2 hwfm2 (by intro h; cases h)]
          rfl

theorem weight_dumps_fuel :
    ∀ fuel : Nat,
      (∀ j : Json, j.weight ≤ fuel → j.weight ≤ 2 * j.dumpsPlain.length) ∧
      (∀ xs : JsonList, xs.weightL ≤ fuel → xs.weightL ≤ 2 * xs.dumpsElems.length + 1) ∧
      (∀ fs : JsonObj, fs.weightO ≤ fuel → fs.weightO ≤ 2 * fs.dumpsFields.length + 1) := by
  intro fuel
  induction fuel with
  | zero =>
    refine ⟨?_, ?_, ?_⟩
    · intro j hw
      have := Json.weight_pos j
      omega
    · intro xs hw
      cases xs with
      | nil => decide
      | cons x tl =>
        have := JsonList.weightL_pos (.cons x tl) (by intro h; cases h)
        omega
    · intro fs hw
      cases fs with
      | nil => decide
      | cons k v tl =>
        have := JsonObj.weightO_pos (.cons k v tl) (by intro h; cases h)
        omega
  | succ fuel ih =>
    obtain ⟨ihV, ihE, ihF⟩ := ih
    refine ⟨?_, ?_, ?_⟩
    · intro j hw
      cases j with
      | null => decide
      | bool b => cases b <;> decide
      | num n =>
        obtain ⟨c, cs, hcs, _, _⟩ := intRepr_head n
        show Json.weight (.num n) ≤ 2 * (intRepr n).length
        rw [hcs]
        simp only [Json.weight, List.length_cons]
        omega
      | str s =>
        show Json.weight (.str s) ≤ 2 * (quoteString s).length
        unfold quoteString
        simp only [Json.weight, List.length_append, List.length_cons, List.length_singleton]
        omega
      | arr xs =>
        have hxs : xs.weightL ≤ fuel := by
          simp only [Json.weight] at hw
          omega
        have := ihE xs hxs
        simp only [Json.weight, Json.dumpsPlain, List.length_cons, List.length_append,
          List.length_singleton]
        omega
      | obj fs =>
        have hfs : fs.weightO ≤ fuel := by
          simp only [Json.weight] at hw
          omega
        have := ihF fs hfs
        simp only [Json.weight, Json.dumpsPlain, List.length_cons, List.length_append,
          List.length_singleton]
        omega
    · intro xs hw
      cases xs with
      | nil => decide
      | cons x tl =>
        have hx : x.weight ≤ fuel := by
          simp only [JsonList.weightL] at hw
          omega
        have hbx := ihV x hx
        cases tl with
        | nil =>
          simp only [JsonList.weightL, JsonList.dumpsElems]
          omega
        | cons y ys =>
          have htl : JsonList.weightL (.cons y ys) ≤ fuel := by
            simp only [JsonList.weightL] at hw ⊢
            omega
          have hbt := ihE _ htl
          simp only [JsonList.weightL, JsonList.dumpsElems, List.length_append,
            List.length_cons] at hbt ⊢
          omega
    · intro fs hw
      cases fs with
      | nil => decide
      | cons k v tl =>
        have hv : v.weight ≤ fuel := by
          simp only [JsonObj.weightO] at hw
          omega
        have hbv := ihV v hv
        cases tl with
        | nil =>
          simp only [JsonObj.weightO, JsonObj.dumpsFields, List.length_append,
            List.length_cons]
          omega
        | cons k2 v2 tl2 =>
          have htl : JsonObj.weightO (.cons k2 v2 tl2) ≤ fuel := by
            simp only [JsonObj.weightO] at hw ⊢
            omega
          have hbt := ihF _ htl
          simp only [JsonObj.weightO, JsonObj.dumpsFields, List.length_append,
            List.length_cons] at hbt ⊢
          omega

theorem weight_le_dumps_len (j : Json) : j.weight ≤ 2 * j.dumpsPlain.length :=
  (weight_dumps_fuel j.weight).1 j (Nat.le_refl _)

theorem loads_dumps (j : Json) (hwf : j.wfKeys = true) : loads j.dumpsPlain = some j := by
  unfold loads
  dsimp only
  obtain ⟨c, cs, hcs, hws, _⟩ := dumps_head_spec j
  rw [hcs, skipWs_cons _ _ hws, ← hcs]
  have hrt := (parse_dumps_fuel (2 * j.dumpsPlain.length + 2)).1 j []
    (by have := weight_le_dumps_len j; omega) hwf (by cases j <;> trivial)
  rw [List.append_nil] at hrt
  rw [hrt]
  rfl

theorem decodeJwt_roundtrip (p : Json) (hwf : p.wfKeys = true) (hdr sig : List Char)
    (hh : '.' ∉ hdr) :
    decodeJwtChars (hdr ++ '.' :: (base64urlNoPad (utf8Encode p.dumpsPlain) ++ '.' :: sig))
      = .ok p := by
  have hlt : ∀ b ∈ utf8Encode p.dumpsPlain, b < 256 := utf8Encode_lt _
  have hdot : '.' ∉ base64urlNoPad (utf8Encode p.dumpsPlain) := by
    intro hmem
    exact b64urlAlphabet_ne_dot '.' ((base64urlNoPad_core _ hlt).1 '.' hmem) rfl
  unfold decodeJwtChars
  dsimp only
  rw [splitDot_head _ _ hh, splitDot_head _ _ hdot]
  rw [if_neg (by simp only [List.length_cons]; omega)]
  rw [show (hdr :: base64urlNoPad (utf8Encode p.dumpsPlain) :: splitDot sig).getD 1 []
      = base64urlNoPad (utf8Encode p.dumpsPlain) from rfl]
  rw [pad_restore _ hlt, b64DecodePadded_encode _ hlt]
  dsimp only
  rw [utf8Decode_encode_ascii _ (dumpsPlain_ascii p)]
  dsimp only
  rw [loads_dumps p hwf]

theorem decodeJwt_few_segments (t : List Char) (h : (splitDot t).length < 2) :
    decodeJwtChars t = .error .notAJwt := by
  unfold decodeJwtChars
  dsimp only
  rw [if_pos h]

/-- C4: for every JSON object `p` (a Python dict, so with pairwise-distinct
keys), every header segment without a dot and every signature segment,
`_decode_jwt_payload` applied to
`header ++ "." ++ base64url-without-padding(json(p)) ++ "." ++ signature`
returns exactly `p` — the stripped base64url padding of the middle segment
is restored correctly for every payload length — and for every input with
fewer than two dot-separated segments it raises `ValueError`
("Not a JWT"). -/
theorem claim_C4_decode_jwt_payload :
    (∀ (fs : JsonObj) (hdr sig : List Char),
      (Json.obj fs).wfKeys = true → '.' ∉ hdr →
      decodeJwtPayload (String.mk (hdr ++ '.' ::
        (base64urlNoPad (utf8Encode (Json.obj fs).dumpsPlain) ++ '.' :: sig)))
        = .ok (Json.obj fs)) ∧
    (∀ t : String, (splitDot t.data).length < 2 →
      decodeJwtPayload t = .error .notAJwt) := by
  constructor
  · intro fs hdr sig hwf hh
    show decodeJwtChars _ = _
    exact decodeJwt_roundtrip (Json.obj fs) hwf hdr sig hh
  · intro t h
    show decodeJwtChars t.data = _
    exact decodeJwt_few_segments t.data h

/-- Witness for C4 at a concrete object, header and signature, and a
concrete dot-free input for the error case. -/
theorem claim_C4_witness :
    decodeJwtPayload (String.mk ('h' :: 'x' :: '.' ::
      (base64urlNoPad (utf8Encode (Json.obj (.cons "aud" (Json.str "r") .nil)).dumpsPlain)
        ++ '.' :: ['s'])))
      = .ok (Json.obj (.cons "aud" (Json.str "r") .nil)) ∧
    decodeJwtPayload "nodot" = .error .notAJwt :=
  ⟨claim_C4_decode_jwt_payload.1 (.cons "aud" (Json.str "r") .nil) ['h', 'x'] ['s']
      (by decide) (by decide),
    claim_C4_decode_jwt_payload.2 "nodot" (by decide)⟩

theorem pyEq_str_iff (v : Json) (s : String) :
    v.pyEq (Json.str s) = true ↔ v = Json.str s := by
  cases v <;> simp [Json.pyEq]

theorem mainRun_snd (env : Env) (w : World) (cf : JsonObj) (h : String)
    (hcs : statusError w.createStatus = false)
    (hcb : w.createBody = some (Json.obj cf))
    (hhl : cf.lookup "handle" = some (Json.str h))
    (hne : h ≠ "") :
    (mainRun env w).2 = postTokenOutcome env w (Json.str h) := by
  unfold mainRun
  rw [hcs, if_neg Bool.false_ne_true, hcb]
  dsimp only
  rw [hhl]
  dsimp only [Option.getD]
  rw [if_neg (by simp [Json.truthy, hne])]

theorem postTokenOutcome_exits (env : Env) (w : World) (h : String)
    (tf : JsonObj) (t : String)
    (hts : statusError w.tokenStatus = false)
    (htb : w.tokenBody = some (Json.obj tf))
    (hat : tf.lookup "access_token" = some (Json.str t))
    (htne : t ≠ "")
    (pf : JsonObj)
    (hdec : decodeJwtPayload t = .ok (Json.obj pf)) :
    postTokenOutcome env w (Json.str h) =
      (if (match pf.lookup "aud" with
           | some a => a.pyEq (Json.str env.resource)
           | none => false) = false then .exit 2
       else if (match pf.lookup "ddls:connections" with
           | some (Json.obj cs) =>
             (match cs.lookup env.connectionName with
              | some v => v.pyEq (Json.str h)
              | none => false)
           | _ => false) = false then .exit 3
       else .exit 0) := by
  unfold postTokenOutcome
  rw [hts, if_neg Bool.false_ne_true, htb]
  dsimp only
  rw [hat]
  dsimp only [Option.getD]
  rw [if_neg (by simp [Json.truthy, htne])]
  rw [hdec]

/-- C1 (amended): in every run in which the Admin API call passes
`raise_for_status` (a 2xx status) with a non-empty string handle `h`, the
AS call likewise succeeds with a non-empty string access token `t`, and
`t`'s payload decodes to a JSON object, `main()`
exits 0 iff the payload's `aud` equals the requested resource and its
`ddls:connections` maps the connection name to `h`; when `aud` differs it
returns 2, and when `aud` matches but `ddls:connections` does not map the
connection name to `h` it returns 3.  (The amendment adds the "when `aud`
matches" qualifier to the exit-3 sentence: the `aud` check runs first, so
a run in which both checks would fail exits 2, not 3.) -/
theorem claim_C1_exit_codes (env : Env) (w : World) (cf : JsonObj) (h : String)
    (hcs : statusError w.createStatus = false)
    (hcb : w.createBody = some (Json.obj cf))
    (hhl : cf.lookup "handle" = some (Json.str h))
    (hne : h ≠ "")
    (tf : JsonObj) (t : String)
    (hts : statusError w.tokenStatus = false)
    (htb : w.tokenBody = some (Json.obj tf))
    (hat : tf.lookup "access_token" = some (Json.str t))
    (htne : t ≠ "")
    (pf : JsonObj)
    (hdec : decodeJwtPayload t = .ok (Json.obj pf)) :
    ((mainRun env w).2 = .exit 0 ↔
      (pf.lookup "aud" = some (Json.str env.resource) ∧
        ∃ cs, pf.lookup "ddls:connections" = some (Json.obj cs) ∧
          cs.lookup env.connectionName = some (Json.str h))) ∧
    (pf.lookup "aud" ≠ some (Json.str env.resource) → (mainRun env w).2 = .exit 2) ∧
    (pf.lookup "aud" = some (Json.str env.resource) →
      ¬(∃ cs, pf.lookup "ddls:connections" = some (Json.obj cs) ∧
          cs.lookup env.connectionName = some (Json.str h)) →
      (mainRun env w).2 = .exit 3) := by
  have hrun := mainRun_snd env w cf h hcs hcb hhl hne
  have hpost := postTokenOutcome_exits env w h tf t hts htb hat htne pf hdec
  rw [hrun, hpost]
  have hA : ((match pf.lookup "aud" with
      | some a => a.pyEq (Json.str env.resource)
      | none => false) = true) ↔ pf.lookup "aud" = some (Json.str env.resource) := by
    rcases ha2 : pf.lookup "aud" with _ | a
    · simp [ha2]
    · simp [ha2, pyEq_str_iff]
  have hC : ((match pf.lookup "ddls:connections" with
      | some (Json.obj cs) =>
        (match cs.lookup env.connectionName with
         | some v => v.pyEq (Json.str h)
         | none => false)
      | _ => false) = true) ↔
      ∃ cs, pf.lookup "ddls:connections" = some (Json.obj cs) ∧
        cs.lookup env.connectionName = some (Json.str h) := by
    rcases hl : pf.lookup "ddls:connections" with _ | c
    · simp [hl]
    · rcases c with _ | b | n | s | xs | cs
      · simp [hl]
      · simp [hl]
      · simp [hl]
      · simp [hl]
      · simp [hl]
      · rcases hv : JsonObj.lookup env.connectionName cs with _ | v
        · simp [hl, hv]
        · simp [hl, hv, pyEq_str_iff]
  by_cases haud : pf.lookup "aud" = some (Json.str env.resource)
  · have hA2 : (match pf.lookup "aud" with
        | some a => a.pyEq (Json.str env.resource)
        | none => false) = true := hA.mpr haud
    rw [hA2, if_neg (by decide)]
    by_cases hconn : ∃ cs, pf.lookup "ddls:connections" = some (Json.obj cs) ∧
        cs.lookup env.connectionName = some (Json.str h)
    · have hC2 : (match pf.lookup "ddls:connections" with
          | some (Json.obj cs) =>
            (match cs.lookup env.connectionName with
             | some v => v.pyEq (Json.str h)
             | none => false)
          | _ => false) = true := hC.mpr hconn
      rw [hC2, if_neg (by decide)]
      exact ⟨⟨fun _ => ⟨haud, hconn⟩, fun _ => rfl⟩,
        fun hcontra => absurd haud hcontra,
        fun _ hcontra => absurd hconn hcontra⟩
    · have hC2 : (match pf.lookup "ddls:connections" with
          | some (Json.obj cs) =>
            (match cs.lookup env.connectionName with
             | some v => v.pyEq (Json.str h)
             | none => false)
          | _ => false) = false := by
        have hnt : ¬((match pf.lookup "ddls:connections" with
            | some (Json.obj cs) =>
              (match cs.lookup env.connectionName with
               | some v => v.pyEq (Json.str h)
               | none => false)
            | _ => false) = true) := fun hm => hconn (hC.mp hm)
        simpa using hnt
      rw [hC2, if_pos rfl]
      refine ⟨⟨fun hcontra => absurd hcontra (by simp), fun hrhs => absurd hrhs.2 hconn⟩,
        fun hcontra => absurd haud hcontra,
        fun _ _ => rfl⟩
  · have hA2 : (match pf.lookup "aud" with
        | some a => a.pyEq (Json.str env.resource)
        | none => false) = false := by
      have hnt : ¬((match pf.lookup "aud" with
          | some a => a.pyEq (Json.str env.resource)
          | none => false) = true) := fun hm => haud (hA.mp hm)
      simpa using hnt
    rw [hA2, if_pos rfl]
    exact ⟨⟨fun hcontra => absurd hcontra (by simp), fun hrhs => absurd hrhs.1 haud⟩,
      fun _ => rfl,
      fun hrhs _ => absurd hrhs haud⟩

/-- Counterexample to C1 as stated: in a run in which the Admin API
returns the non-empty handle `H1` and the AS returns the access token
`x.e30.y` (whose payload decodes to `{}`), `ddls:connections` does not map
the connection name to the handle, yet `main()` returns 2, not 3 — the
`aud` check runs first. -/
theorem claim_C1_counterexample :
    statusError c1World.createStatus = false ∧
    c1World.createBody = some (Json.obj (.cons "handle" (Json.str "H1") .nil)) ∧
    statusError c1World.tokenStatus = false ∧
    c1World.tokenBody = some (Json.obj (.cons "access_token" (Json.str "x.e30.y") .nil)) ∧
    decodeJwtPayload "x.e30.y" = .ok (Json.obj .nil) ∧
    JsonObj.nil.lookup "ddls:connections" = none ∧
    (mainRun c1Env c1World).2 = .exit 2 ∧
    (mainRun c1Env c1World).2 ≠ .exit 3 := by
  refine ⟨rfl, rfl, rfl, rfl, rfl, rfl, rfl, by decide⟩

set_option maxRecDepth 100000 in
/-- Witness for (amended) C1: a concrete fully successful run exits 0. -/
theorem claim_C1_witness : (mainRun c1Env c1wWorld).2 = .exit 0 :=
  (claim_C1_exit_codes c1Env c1wWorld (.cons "handle" (Json.str "H1") .nil) "H1"
    rfl rfl rfl (by decide)
    (.cons "access_token" (Json.str c1wToken) .nil) c1wToken
    rfl rfl rfl (by decide)
    c1wPayload rfl).1.mpr
    ⟨rfl, ⟨.cons "github" (Json.str "H1") .nil, rfl, rfl⟩⟩
